import Mathlib

/-!
Verification of the Accord-style consensus node driver (`diststore/accord/node/mod.rs`),
the openraft consensus client (`raft/src/client/mod.rs`) and the SQL `LIMIT`/`OFFSET`
planner (`datafusion_ext/src/planner/query.rs`), as shallow embeddings in Lean 4.

Handler bodies for `CoordinatorState` and `ReplicaState` (files `coordinator.rs` and
`replica.rs`) are not part of the provided sources; where a claim depends on them they
are modelled from the specification, as marked on each definition. The `StateDriver`
dispatch itself is translated directly from `mod.rs` and is parametric in the handler
behaviour, so theorems about the driver hold for every handler implementation.
-/

namespace Accord

/-- Node identifier: opaque, totally ordered (modelled as `Nat`). -/
abbrev NodeId := Nat

/-- Keys and commands are opaque to the driver; modelled as `Nat`. -/
abbrev Key := Nat

abbrev Command := Nat

abbrev Payload := Nat

abbrev Writes := Nat

/-- Transaction id `(u64 logical, NodeId origin)`; timestamps share the format.
The origin field is spelt `Nat` (the definition of `NodeId`) directly. -/
structure TxId where
  logical : Nat
  origin : Nat
deriving DecidableEq, Repr

/-- Timestamps have the same shape as transaction ids. -/
abbrev Ts := TxId

/-- Lexicographic order on timestamps: logical component first, then origin. -/
def tsLe (a b : Ts) : Bool :=
  a.logical < b.logical || (a.logical == b.logical && a.origin ≤ b.origin)

inductive TxKind where
  | Read
  | Write
deriving DecidableEq, Repr

structure PreAcceptMsg where
  id : TxId
  t0 : Ts
  keys : List Key
  kind : TxKind
  command : Command
deriving DecidableEq, Repr

structure PreAcceptOkMsg where
  id : TxId
  proposed_tx : Ts
  deps : Finset TxId
deriving DecidableEq

structure AcceptMsg where
  id : TxId
  tx : Ts
  deps : Finset TxId
deriving DecidableEq

structure AcceptOkMsg where
  id : TxId
deriving DecidableEq, Repr

structure CommitMsg where
  id : TxId
  tx : Ts
  deps : Finset TxId
deriving DecidableEq

/-- In the source the commit payload exposes the transaction id via `msg.tx.get_id()`. -/
def CommitMsg.get_id (m : CommitMsg) : TxId := m.id

structure ReadMsg where
  id : TxId
  tx : Ts
  deps : Finset TxId
  keys : List Key
deriving DecidableEq

structure ReadOkMsg where
  id : TxId
  payload : Payload
deriving DecidableEq, Repr

structure ApplyMsg where
  id : TxId
  tx : Ts
  deps : Finset TxId
  writes : Writes
deriving DecidableEq

structure ApplyOkMsg where
  id : TxId
deriving DecidableEq, Repr

structure StartExecuteInternal where
  tx : TxId
deriving DecidableEq, Repr

/-- `ProtocolMessage` tagged union, exactly the variant set of the source. -/
inductive ProtocolMessage where
  | PreAccept (m : PreAcceptMsg)
  | PreAcceptOk (m : PreAcceptOkMsg)
  | Accept (m : AcceptMsg)
  | AcceptOk (m : AcceptOkMsg)
  | Commit (m : CommitMsg)
  | Read (m : ReadMsg)
  | ReadOk (m : ReadOkMsg)
  | Apply (m : ApplyMsg)
  | ApplyOk (m : ApplyOkMsg)
  | BeginRead (keys : List Key) (command : Command)
  | BeginWrite (keys : List Key) (command : Command)
  | StartExecute (m : StartExecuteInternal)
deriving DecidableEq

/-- Address discriminant: `Local | Peer(NodeId) | Peers`. -/
inductive Address where
  | Local
  | Peer (id : NodeId)
  | Peers
deriving DecidableEq, Repr

/-- A wire message `{from, to, proto_msg}`; `from` is a Lean keyword, spelt `fromNode`. -/
structure Message where
  fromNode : NodeId
  toAddr : Address
  proto_msg : ProtocolMessage
deriving DecidableEq

/-- Error type of the accord node; only the variants the driver itself produces are
distinguished, all handler-produced errors fall under `Internal`. -/
inductive AccordError where
  | OutboundSend (msg : String)
  | Internal (msg : String)
deriving DecidableEq, Repr

/-- Spec §4.2: coordinator-side per-transaction tally of pre-accept responses,
`map[peer → (proposed_tx, deps)]`. -/
structure Proposal where
  proposed_tx : Ts
  deps : Finset TxId
deriving DecidableEq

structure TxTally where
  preaccept_responses : List (NodeId × Proposal)
  accept_responses : List NodeId
  read_responses : List (NodeId × Payload)
  keys : List Key
  command : Command
  kind : TxKind
  decided_tx : Ts
  decided_deps : Finset TxId
deriving DecidableEq

/-- Topology snapshot: fast-path quorum `F` and slow-path quorum `S`. -/
structure Topology where
  fastQuorum : Nat
  slowQuorum : Nat
deriving DecidableEq, Repr

/-- Modelled from the spec: `CoordinatorState` (file `coordinator.rs` is absent from
the sources); a table of in-flight transactions this node is driving. -/
structure CoordinatorState where
  tm : Topology
  node : NodeId
  counter : Nat
  inflight : List (TxId × TxTally)
deriving DecidableEq

/-- Modelled from the spec: `ReplicaState` (file `replica.rs` is absent from the
sources); only the node id is consulted by the driver itself. -/
structure ReplicaState where
  node : NodeId
  clock : Nat
deriving DecidableEq

/-- `replica.get_node_id()` as used by `send_outbound` in the source. -/
def ReplicaState.get_node_id (r : ReplicaState) : NodeId := r.node

/-- `AcceptOrCommit` decision returned by `CoordinatorState::store_proposal`. -/
inductive AcceptOrCommit where
  | Accept (m : AcceptMsg)
  | Commit (m : CommitMsg)
deriving DecidableEq

/-- `ExecutionActionOk` produced by `receive_read` / `receive_apply`. -/
inductive ExecutionActionOk where
  | ReadOk (m : ReadOkMsg)
  | ApplyOk (m : ApplyOkMsg)
deriving DecidableEq

/-- The behaviour of the coordinator and replica handlers, abstracted: `mod.rs` only
calls these methods, so each driver theorem is stated for every `Handlers` value.
The executor is threaded through `receive_read` / `receive_apply` and is subsumed by
their arbitrariness. -/
structure Handlers where
  new_read_tx : CoordinatorState → List Key → Command → CoordinatorState × PreAcceptMsg
  new_write_tx : CoordinatorState → List Key → Command → CoordinatorState × PreAcceptMsg
  start_execute : CoordinatorState → StartExecuteInternal →
    Except AccordError (CoordinatorState × ReadMsg)
  receive_preaccept : ReplicaState → PreAcceptMsg → ReplicaState × PreAcceptOkMsg
  store_proposal : CoordinatorState → NodeId → PreAcceptOkMsg →
    Except AccordError (CoordinatorState × Option AcceptOrCommit)
  receive_accept : ReplicaState → AcceptMsg → ReplicaState × AcceptOkMsg
  store_accept_ok : CoordinatorState → NodeId → AcceptOkMsg →
    Except AccordError (CoordinatorState × Option CommitMsg)
  receive_commit : ReplicaState → CommitMsg → Except AccordError ReplicaState
  receive_read : ReplicaState → ReadMsg →
    Except AccordError (ReplicaState × List ExecutionActionOk)
  store_read_ok : CoordinatorState → ReadOkMsg →
    Except AccordError (CoordinatorState × Option ApplyMsg)
  receive_apply : ReplicaState → ApplyMsg →
    Except AccordError (ReplicaState × List ExecutionActionOk)

/-- Driver state: the two substructures plus the outbound channel's health.  A tokio
unbounded send fails exactly when the receiver was dropped, a persistent condition,
modelled as the boolean `outboundOpen`. -/
structure StateDriver where
  coordinator : CoordinatorState
  replica : ReplicaState
  outboundOpen : Bool
deriving DecidableEq

/-- `StateDriver::send_outbound`: wraps the payload with `from = self node id` and the
given address; a closed channel yields the fatal `OutboundSend` error.  Returns the
message that was enqueued. -/
def send_outbound (s : StateDriver) (toAddr : Address) (msg : ProtocolMessage) :
    Except AccordError Message :=
  let m : Message := { fromNode := s.replica.get_node_id, toAddr := toAddr, proto_msg := msg }
  if s.outboundOpen then Except.ok m
  else Except.error (AccordError.OutboundSend "channel closed")

/-- `StateDriver::send_execution_actions`: route each action to the given address, in
order. -/
def send_execution_actions (s : StateDriver) (toAddr : Address) :
    List ExecutionActionOk → Except AccordError (List Message)
  | [] => Except.ok []
  | action :: rest => do
    let out ← match action with
      | ExecutionActionOk.ReadOk m => send_outbound s toAddr (ProtocolMessage.ReadOk m)
      | ExecutionActionOk.ApplyOk m => send_outbound s toAddr (ProtocolMessage.ApplyOk m)
    let outs ← send_execution_actions s toAddr rest
    Except.ok (out :: outs)

/-- `StateDriver::handle_msg`, translated arm by arm from the source dispatch.
Returns the updated driver state together with the list of messages enqueued on the
outbound channel, in enqueue order. -/
def handle_msg (h : Handlers) (s : StateDriver) (msg : Message) :
    Except AccordError (StateDriver × List Message) :=
  let frm := msg.fromNode
  match msg.proto_msg with
  | ProtocolMessage.BeginRead keys command =>
    let (c, m) := h.new_read_tx s.coordinator keys command
    let s := { s with coordinator := c }
    do
      let out ← send_outbound s Address.Peers (ProtocolMessage.PreAccept m)
      Except.ok (s, [out])
  | ProtocolMessage.BeginWrite keys command =>
    let (c, m) := h.new_write_tx s.coordinator keys command
    let s := { s with coordinator := c }
    do
      let out ← send_outbound s Address.Peers (ProtocolMessage.PreAccept m)
      Except.ok (s, [out])
  | ProtocolMessage.StartExecute m =>
    do
      let (c, rm) ← h.start_execute s.coordinator m
      let s := { s with coordinator := c }
      let out ← send_outbound s Address.Peers (ProtocolMessage.Read rm)
      Except.ok (s, [out])
  | ProtocolMessage.PreAccept m =>
    let (r, ok) := h.receive_preaccept s.replica m
    let s := { s with replica := r }
    do
      let out ← send_outbound s (Address.Peer frm) (ProtocolMessage.PreAcceptOk ok)
      Except.ok (s, [out])
  | ProtocolMessage.PreAcceptOk m =>
    do
      let (c, dec) ← h.store_proposal s.coordinator frm m
      let s := { s with coordinator := c }
      match dec with
      | some (AcceptOrCommit.Accept am) =>
        let out ← send_outbound s Address.Peers (ProtocolMessage.Accept am)
        Except.ok (s, [out])
      | some (AcceptOrCommit.Commit cm) =>
        let id := cm.get_id
        let o1 ← send_outbound s Address.Peers (ProtocolMessage.Commit cm)
        let o2 ← send_outbound s Address.Local
          (ProtocolMessage.StartExecute { tx := id })
        Except.ok (s, [o1, o2])
      | none => Except.ok (s, [])
  | ProtocolMessage.Accept m =>
    let (r, ok) := h.receive_accept s.replica m
    let s := { s with replica := r }
    do
      let out ← send_outbound s (Address.Peer frm) (ProtocolMessage.AcceptOk ok)
      Except.ok (s, [out])
  | ProtocolMessage.AcceptOk m =>
    do
      let (c, dec) ← h.store_accept_ok s.coordinator frm m
      let s := { s with coordinator := c }
      match dec with
      | some cm =>
        let id := cm.get_id
        let o1 ← send_outbound s Address.Peers (ProtocolMessage.Commit cm)
        let o2 ← send_outbound s Address.Local
          (ProtocolMessage.StartExecute { tx := id })
        Except.ok (s, [o1, o2])
      | none => Except.ok (s, [])
  | ProtocolMessage.Commit m =>
    do
      let r ← h.receive_commit s.replica m
      Except.ok ({ s with replica := r }, [])
  | ProtocolMessage.Read m =>
    do
      let (r, actions) ← h.receive_read s.replica m
      let s := { s with replica := r }
      let outs ← send_execution_actions s (Address.Peer frm) actions
      Except.ok (s, outs)
  | ProtocolMessage.ReadOk m =>
    do
      let (c, dec) ← h.store_read_ok s.coordinator m
      let s := { s with coordinator := c }
      match dec with
      | some am =>
        let out ← send_outbound s Address.Peers (ProtocolMessage.Apply am)
        Except.ok (s, [out])
      | none => Except.ok (s, [])
  | ProtocolMessage.Apply m =>
    do
      let (r, actions) ← h.receive_apply s.replica m
      let s := { s with replica := r }
      let outs ← send_execution_actions s (Address.Peer frm) actions
      Except.ok (s, outs)
  | ProtocolMessage.ApplyOk _ =>
    Except.ok (s, [])

/-- `StateDriver::start` on a finite inbound sequence: handle each message in arrival
order, propagating the first handler error; on success return the final state and the
concatenation of all enqueued outbound messages. -/
def start (h : Handlers) (s : StateDriver) :
    List Message → Except AccordError (StateDriver × List Message)
  | [] => Except.ok (s, [])
  | msg :: rest => do
    let (s', outs) ← handle_msg h s msg
    let (s'', outs') ← start h s' rest
    Except.ok (s'', outs ++ outs')

/-- The wire message an execution action becomes when routed to an address by
`send_execution_actions`. -/
def actionMessage (n : NodeId) (a : Address) : ExecutionActionOk → Message
  | ExecutionActionOk.ReadOk m => { fromNode := n, toAddr := a, proto_msg := ProtocolMessage.ReadOk m }
  | ExecutionActionOk.ApplyOk m => { fromNode := n, toAddr := a, proto_msg := ProtocolMessage.ApplyOk m }

/-- Every message of a finite inbound sequence is handled without error. -/
def allHandledOk (h : Handlers) : StateDriver → List Message → Prop
  | _, [] => True
  | s, msg :: rest =>
    ∃ s' outs, handle_msg h s msg = Except.ok (s', outs) ∧ allHandledOk h s' rest

/-- The first handler failure along a finite inbound sequence raises exactly `e`. -/
def firstErrorIs (h : Handlers) (e : AccordError) : StateDriver → List Message → Prop
  | _, [] => False
  | s, msg :: rest =>
    handle_msg h s msg = Except.error e ∨
    ∃ s' outs, handle_msg h s msg = Except.ok (s', outs) ∧ firstErrorIs h e s' rest

/-- Look up the coordinator tally of a transaction id. -/
def lookupTally (l : List (TxId × TxTally)) (id : TxId) : Option TxTally :=
  (l.find? (fun p => p.1 == id)).map (fun p => p.2)

/-- Insert-or-replace a peer's pre-accept response in the tally map. -/
def insertResp (rs : List (NodeId × Proposal)) (peer : NodeId) (p : Proposal) :
    List (NodeId × Proposal) :=
  if rs.any (fun r => r.1 == peer) then
    rs.map (fun r => if r.1 == peer then (peer, p) else r)
  else rs ++ [(peer, p)]

/-- Number of responses in the tally that carry exactly this `(proposed_tx, deps)`. -/
def agreeCount (rs : List (NodeId × Proposal)) (p : Proposal) : Nat :=
  (rs.filter (fun r => r.2 == p)).length

/-- Maximum `proposed_tx` over responses, folded from a first value. -/
def maxProposedTx (p0 : Ts) (rs : List (NodeId × Proposal)) : Ts :=
  rs.foldl (fun acc r => if tsLe acc r.2.proposed_tx then r.2.proposed_tx else acc) p0

/-- Union of the dependency sets of all responses. -/
def unionDeps (rs : List (NodeId × Proposal)) : Finset TxId :=
  rs.foldl (fun acc r => acc ∪ r.2.deps) ∅

/-- Modelled from the spec: the decision step of `CoordinatorState::store_proposal`
(`coordinator.rs` is absent from the sources).  Fast path when at least `F` responses
agree on one `(proposed_tx, deps)`; slow path once at least `S` responses arrived,
with the maximum proposed timestamp and the union of the dependency sets; otherwise
wait. -/
def decideProposal (F S : Nat) (id : TxId) (rs : List (NodeId × Proposal)) :
    Option AcceptOrCommit :=
  match rs.find? (fun r => F ≤ agreeCount rs r.2) with
  | some r =>
    some (AcceptOrCommit.Commit { id := id, tx := r.2.proposed_tx, deps := r.2.deps })
  | none =>
    match rs with
    | [] => none
    | r0 :: rest =>
      if S ≤ (r0 :: rest).length then
        some (AcceptOrCommit.Accept
          { id := id, tx := maxProposedTx r0.2.proposed_tx rest, deps := unionDeps (r0 :: rest) })
      else none

/-- Modelled from the spec: `CoordinatorState::store_proposal` (`coordinator.rs` is
absent from the sources).  A response for an unknown transaction id is a protocol
error: logged and dropped (spec §7).  Otherwise the response is appended to the tally
and the quorum decision is taken on the updated responses. -/
def CoordinatorState.store_proposal (c : CoordinatorState) (peer : NodeId)
    (m : PreAcceptOkMsg) : Except AccordError (CoordinatorState × Option AcceptOrCommit) :=
  match lookupTally c.inflight m.id with
  | none => Except.ok (c, none)
  | some tally =>
    let rs := insertResp tally.preaccept_responses peer
      { proposed_tx := m.proposed_tx, deps := m.deps }
    let tally' := { tally with preaccept_responses := rs }
    let c' := { c with
      inflight := c.inflight.map (fun p => if p.1 == m.id then (m.id, tally') else p) }
    Except.ok (c', decideProposal c.tm.fastQuorum c.tm.slowQuorum m.id rs)

/-- Modelled from the spec: `CoordinatorState::store_accept_ok` (`coordinator.rs` is
absent from the sources).  Once `S` peers acknowledged, return the commit message with
the decided `(tx, deps)`; an unknown id is logged and dropped. -/
def CoordinatorState.store_accept_ok (c : CoordinatorState) (peer : NodeId)
    (m : AcceptOkMsg) : Except AccordError (CoordinatorState × Option CommitMsg) :=
  match lookupTally c.inflight m.id with
  | none => Except.ok (c, none)
  | some tally =>
    let acks := if tally.accept_responses.contains peer
      then tally.accept_responses else peer :: tally.accept_responses
    let tally' := { tally with accept_responses := acks }
    let c' := { c with
      inflight := c.inflight.map (fun p => if p.1 == m.id then (m.id, tally') else p) }
    if c.tm.slowQuorum ≤ acks.length then
      Except.ok (c', some { id := m.id, tx := tally.decided_tx, deps := tally.decided_deps })
    else Except.ok (c', none)

/-- Modelled from the spec: `CoordinatorState::store_read_ok` (`coordinator.rs` is
absent from the sources).  A `ReadOk` for an unknown transaction id is a protocol
error: logged and the message dropped (spec §7).  Otherwise the payload is recorded
and, once a read quorum is assembled, the apply message is returned. -/
def CoordinatorState.store_read_ok (c : CoordinatorState) (m : ReadOkMsg) :
    Except AccordError (CoordinatorState × Option ApplyMsg) :=
  match lookupTally c.inflight m.id with
  | none => Except.ok (c, none)
  | some tally =>
    let reads := (m.id.origin, m.payload) :: tally.read_responses
    let tally' := { tally with read_responses := reads }
    let c' := { c with
      inflight := c.inflight.map (fun p => if p.1 == m.id then (m.id, tally') else p) }
    if c.tm.slowQuorum ≤ reads.length then
      Except.ok (c', some { id := m.id, tx := tally.decided_tx,
                            deps := tally.decided_deps, writes := tally.command })
    else Except.ok (c', none)

/-- Modelled from the spec: `CoordinatorState::new_read_tx` / `new_write_tx`
(`coordinator.rs` is absent from the sources): allocate a fresh id from the monotonic
counter plus node id, record a tally entry, return the pre-accept payload. -/
def CoordinatorState.new_tx (c : CoordinatorState) (kind : TxKind) (keys : List Key)
    (command : Command) : CoordinatorState × PreAcceptMsg :=
  let id : TxId := { logical := c.counter + 1, origin := c.node }
  let tally : TxTally := { preaccept_responses := [], accept_responses := [],
                           read_responses := [], keys := keys, command := command,
                           kind := kind, decided_tx := id, decided_deps := ∅ }
  ({ c with counter := c.counter + 1, inflight := (id, tally) :: c.inflight },
   { id := id, t0 := id, keys := keys, kind := kind, command := command })

/-- Modelled from the spec: `CoordinatorState::start_execute` (`coordinator.rs` is
absent from the sources): emit the read request `(id, tx, deps, keys)`. -/
def CoordinatorState.start_execute (c : CoordinatorState) (m : StartExecuteInternal) :
    Except AccordError (CoordinatorState × ReadMsg) :=
  match lookupTally c.inflight m.tx with
  | none => Except.error (AccordError.Internal "start execute for unknown tx")
  | some tally =>
    Except.ok (c, { id := m.tx, tx := tally.decided_tx,
                    deps := tally.decided_deps, keys := tally.keys })

/-- Modelled from the spec: `ReplicaState::receive_preaccept` with a single local
timeline: `proposed_tx = max(t0, local_clock() + 1)`, clock advanced.  Per-key
dependency tracking is not modelled; no driver theorem depends on it (they hold for
every `Handlers` value). -/
def ReplicaState.receive_preaccept (r : ReplicaState) (m : PreAcceptMsg) :
    ReplicaState × PreAcceptOkMsg :=
  let proposed : Nat := max m.t0.logical (r.clock + 1)
  ({ r with clock := proposed },
   { id := m.id, proposed_tx := { logical := proposed, origin := r.node }, deps := ∅ })

/-- Modelled from the spec: simplified replica acknowledgement of an accept. -/
def ReplicaState.receive_accept (r : ReplicaState) (m : AcceptMsg) :
    ReplicaState × AcceptOkMsg :=
  (r, { id := m.id })

/-- The concrete handler set used to instantiate the driver theorems: the coordinator
decision logic modelled from the spec, a simplified replica. -/
def specHandlers : Handlers :=
  { new_read_tx := fun c keys cmd => c.new_tx TxKind.Read keys cmd
    new_write_tx := fun c keys cmd => c.new_tx TxKind.Write keys cmd
    start_execute := CoordinatorState.start_execute
    receive_preaccept := ReplicaState.receive_preaccept
    store_proposal := CoordinatorState.store_proposal
    receive_accept := ReplicaState.receive_accept
    store_accept_ok := CoordinatorState.store_accept_ok
    receive_commit := fun r _ => Except.ok r
    receive_read := fun r m => Except.ok (r, [ExecutionActionOk.ReadOk { id := m.id, payload := 0 }])
    store_read_ok := CoordinatorState.store_read_ok
    receive_apply := fun r m => Except.ok (r, [ExecutionActionOk.ApplyOk { id := m.id }]) }

/-- C3: a protocol error — here a `ReadOk` for a transaction id unknown to the
coordinator — is dropped: the handler returns successfully with no outbound message
and unchanged state, and the driver continues with the remaining inbound messages;
the error is not fatal. -/
theorem protocol_error_dropped_not_fatal (s : StateDriver) (msg : Message)
    (m : ReadOkMsg) (hm : msg.proto_msg = ProtocolMessage.ReadOk m)
    (hunknown : lookupTally s.coordinator.inflight m.id = none)
    (rest : List Message) :
    handle_msg specHandlers s msg = Except.ok (s, []) ∧
    start specHandlers s (msg :: rest) = start specHandlers s rest := by
  obtain ⟨frm, ta, pm⟩ := msg
  simp only at hm
  subst hm
  have hsro : CoordinatorState.store_read_ok s.coordinator m =
      Except.ok (s.coordinator, none) := by
    simp [CoordinatorState.store_read_ok, hunknown]
  have h1 : handle_msg specHandlers s ⟨frm, ta, ProtocolMessage.ReadOk m⟩ =
      Except.ok (s, []) := by
    simp [handle_msg, specHandlers, hsro, Bind.bind, Except.bind]
  refine ⟨h1, ?_⟩
  cases hrest : start specHandlers s rest with
  | error e => simp [start, h1, hrest, Bind.bind, Except.bind]
  | ok r => simp [start, h1, hrest, Bind.bind, Except.bind]

theorem tsLe_refl (a : Ts) : tsLe a a = true := by
  simp [tsLe]

theorem tsLe_trans {a b c : Ts} (hab : tsLe a b = true) (hbc : tsLe b c = true) :
    tsLe a c = true := by
  simp only [tsLe, Bool.or_eq_true, decide_eq_true_eq, Bool.and_eq_true, beq_iff_eq]
    at hab hbc ⊢
  omega

theorem tsLe_total (a b : Ts) : tsLe a b = true ∨ tsLe b a = true := by
  simp only [tsLe, Bool.or_eq_true, decide_eq_true_eq, Bool.and_eq_true, beq_iff_eq]
  omega

theorem maxProposedTx_spec (l : List (NodeId × Proposal)) :
    ∀ p0 : Ts,
      (maxProposedTx p0 l = p0 ∨ ∃ r ∈ l, maxProposedTx p0 l = r.2.proposed_tx) ∧
      tsLe p0 (maxProposedTx p0 l) = true ∧
      ∀ r ∈ l, tsLe r.2.proposed_tx (maxProposedTx p0 l) = true := by
  induction l with
  | nil =>
    intro p0
    simp [maxProposedTx, tsLe_refl]
  | cons hd tl ih =>
    intro p0
    by_cases hc : tsLe p0 hd.2.proposed_tx = true
    · have hunf : maxProposedTx p0 (hd :: tl) = maxProposedTx hd.2.proposed_tx tl := by
        simp [maxProposedTx, hc]
      obtain ⟨hmem, hge, hall⟩ := ih hd.2.proposed_tx
      refine ⟨?_, ?_, ?_⟩
      · rcases hmem with hmem | ⟨r, hr, hrr⟩
        · exact Or.inr ⟨hd, by simp, by rw [hunf, hmem]⟩
        · exact Or.inr ⟨r, by simp [hr], by rw [hunf, hrr]⟩
      · rw [hunf]
        exact tsLe_trans hc hge
      · intro r hr
        rw [hunf]
        rcases List.mem_cons.mp hr with hr | hr
        · rw [hr]
          exact hge
        · exact hall r hr
    · have hc' : tsLe hd.2.proposed_tx p0 = true := by
        rcases tsLe_total p0 hd.2.proposed_tx with hx | hx
        · exact absurd hx hc
        · exact hx
      have hunf : maxProposedTx p0 (hd :: tl) = maxProposedTx p0 tl := by
        simp [maxProposedTx, hc]
      obtain ⟨hmem, hge, hall⟩ := ih p0
      refine ⟨?_, ?_, ?_⟩
      · rcases hmem with hmem | ⟨r, hr, hrr⟩
        · exact Or.inl (by rw [hunf, hmem])
        · exact Or.inr ⟨r, by simp [hr], by rw [hunf, hrr]⟩
      · rw [hunf]
        exact hge
      · intro r hr
        rw [hunf]
        rcases List.mem_cons.mp hr with hr | hr
        · rw [hr]
          exact tsLe_trans hc' hge
        · exact hall r hr

theorem foldl_union_mem (l : List (NodeId × Proposal)) :
    ∀ (a : Finset TxId) (x : TxId),
      (x ∈ l.foldl (fun acc r => acc ∪ r.2.deps) a ↔ x ∈ a ∨ ∃ r ∈ l, x ∈ r.2.deps) := by
  induction l with
  | nil =>
    intro a x
    simp
  | cons hd tl ih =>
    intro a x
    simp only [List.foldl_cons]
    rw [ih (a ∪ hd.2.deps) x]
    simp [Finset.mem_union]
    tauto

theorem unionDeps_mem (l : List (NodeId × Proposal)) (x : TxId) :
    x ∈ unionDeps l ↔ ∃ r ∈ l, x ∈ r.2.deps := by
  rw [unionDeps, foldl_union_mem l ∅ x]
  simp

theorem agreeCount_le_length (rs : List (NodeId × Proposal)) (p : Proposal) :
    agreeCount rs p ≤ rs.length :=
  List.length_filter_le _ _

theorem decideProposal_spec (F S : Nat) (hS : 1 ≤ S) (hFS : S ≤ F) (id : TxId)
    (rs : List (NodeId × Proposal)) :
    ((∃ cm, decideProposal F S id rs = some (AcceptOrCommit.Commit cm)) ↔
      ∃ r ∈ rs, F ≤ agreeCount rs r.2) ∧
    (∀ cm, decideProposal F S id rs = some (AcceptOrCommit.Commit cm) →
      cm.id = id ∧ F ≤ agreeCount rs { proposed_tx := cm.tx, deps := cm.deps }) ∧
    (∀ am, decideProposal F S id rs = some (AcceptOrCommit.Accept am) →
      am.id = id ∧ S ≤ rs.length ∧
      (∃ r ∈ rs, r.2.proposed_tx = am.tx) ∧
      (∀ r ∈ rs, tsLe r.2.proposed_tx am.tx = true) ∧
      (∀ x, x ∈ am.deps ↔ ∃ r ∈ rs, x ∈ r.2.deps)) ∧
    ((¬ ∃ r ∈ rs, F ≤ agreeCount rs r.2) → S ≤ rs.length →
      ∃ am, decideProposal F S id rs = some (AcceptOrCommit.Accept am)) ∧
    (rs.length < S → decideProposal F S id rs = none) := by
  cases hfq : rs.find? (fun r => decide (F ≤ agreeCount rs r.2)) with
  | some r =>
    have hrmem : r ∈ rs := List.mem_of_find?_eq_some hfq
    have hrp : F ≤ agreeCount rs r.2 := by
      have h1 := List.find?_some hfq
      simpa using h1
    have hdec2 : decideProposal F S id rs =
        some (AcceptOrCommit.Commit
          { id := id, tx := r.2.proposed_tx, deps := r.2.deps }) := by
      rw [decideProposal.eq_def, hfq]
    rw [hdec2]
    refine ⟨?_, ?_, ?_, ?_, ?_⟩
    · exact ⟨fun _ => ⟨r, hrmem, hrp⟩, fun _ => ⟨_, rfl⟩⟩
    · intro cm hcm
      simp at hcm
      rw [hcm.symm]
      refine ⟨rfl, ?_⟩
      have heta : ({ proposed_tx := r.2.proposed_tx, deps := r.2.deps } : Proposal) = r.2 := rfl
      rw [heta]
      exact hrp
    · intro am ham
      simp at ham
    · intro hnofast _
      exact absurd ⟨r, hrmem, hrp⟩ hnofast
    · intro hlen
      have h1 : agreeCount rs r.2 ≤ rs.length := agreeCount_le_length rs r.2
      omega
  | none =>
    have hnone : ∀ r ∈ rs, ¬ F ≤ agreeCount rs r.2 := by
      intro r hr
      have h1 := List.find?_eq_none.mp hfq r hr
      simpa using h1
    cases rs with
    | nil =>
      have hdec2 : decideProposal F S id ([] : List (NodeId × Proposal)) = none := rfl
      rw [hdec2]
      refine ⟨?_, ?_, ?_, ?_, ?_⟩
      · simp
      · intro cm hcm
        simp at hcm
      · intro am ham
        simp at ham
      · intro _ hlen
        simp at hlen
        omega
      · intro _
        rfl
    | cons r0 rest =>
      by_cases hlen : S ≤ (r0 :: rest).length
      · have hdec2 : decideProposal F S id (r0 :: rest) =
            some (AcceptOrCommit.Accept
              { id := id, tx := maxProposedTx r0.2.proposed_tx rest,
                deps := unionDeps (r0 :: rest) }) := by
          have hlen' : S ≤ rest.length + 1 := by simpa using hlen
          rw [decideProposal.eq_def, hfq]
          simp [hlen']
        rw [hdec2]
        refine ⟨?_, ?_, ?_, ?_, ?_⟩
        · constructor
          · rintro ⟨cm, hcm⟩
            simp at hcm
          · rintro ⟨r, hr, hrp⟩
            exact absurd hrp (hnone r hr)
        · intro cm hcm
          simp at hcm
        · intro am ham
          simp at ham
          obtain ⟨hmem, hge, hall⟩ := maxProposedTx_spec rest r0.2.proposed_tx
          rw [ham.symm]
          refine ⟨rfl, hlen, ?_, ?_, ?_⟩
          · rcases hmem with hmem | ⟨r, hr, hrr⟩
            · exact ⟨r0, by simp, by rw [hmem]⟩
            · exact ⟨r, by simp [hr], by rw [hrr]⟩
          · intro r hr
            rcases List.mem_cons.mp hr with hr | hr
            · rw [hr]
              exact hge
            · exact hall r hr
          · intro x
            exact unionDeps_mem (r0 :: rest) x
        · intro _ _
          exact ⟨_, rfl⟩
        · intro hlt
          omega
      · have hdec2 : decideProposal F S id (r0 :: rest) = none := by
          have hlen' : ¬ S ≤ rest.length + 1 := by simpa using hlen
          rw [decideProposal.eq_def, hfq]
          simp [hlen']
        rw [hdec2]
        refine ⟨?_, ?_, ?_, ?_, ?_⟩
        · constructor
          · rintro ⟨cm, hcm⟩
            simp at hcm
          · rintro ⟨r, hr, hrp⟩
            exact absurd hrp (hnone r hr)
        · intro cm hcm
          simp at hcm
        · intro am ham
          simp at ham
        · intro _ hlen2
          exact absurd hlen2 hlen
        · intro _
          rfl

/-- C4: modelled from the spec, `store_proposal` on a known transaction id decides
fast-path `Commit` exactly when at least `F` of the updated responses agree on one
`(proposed_tx, deps)` (and the commit carries such an agreed pair); otherwise, once
at least `S` responses are present it returns `Accept` with the maximum proposed
timestamp and the union of the dependency sets; with fewer than `S` responses it
returns nothing. -/
theorem store_proposal_quorum_decision
    (c : CoordinatorState) (peer : NodeId) (m : PreAcceptOkMsg)
    (tally : TxTally) (hfind : lookupTally c.inflight m.id = some tally)
    (hS : 1 ≤ c.tm.slowQuorum) (hFS : c.tm.slowQuorum ≤ c.tm.fastQuorum)
    (c' : CoordinatorState) (dec : Option AcceptOrCommit)
    (hsp : CoordinatorState.store_proposal c peer m = Except.ok (c', dec))
    (rs : List (NodeId × Proposal))
    (hrs : rs = insertResp tally.preaccept_responses peer
      { proposed_tx := m.proposed_tx, deps := m.deps }) :
    ((∃ cm, dec = some (AcceptOrCommit.Commit cm)) ↔
      ∃ r ∈ rs, c.tm.fastQuorum ≤ agreeCount rs r.2) ∧
    (∀ cm, dec = some (AcceptOrCommit.Commit cm) →
      cm.id = m.id ∧
      c.tm.fastQuorum ≤ agreeCount rs { proposed_tx := cm.tx, deps := cm.deps }) ∧
    (∀ am, dec = some (AcceptOrCommit.Accept am) →
      am.id = m.id ∧ c.tm.slowQuorum ≤ rs.length ∧
      (∃ r ∈ rs, r.2.proposed_tx = am.tx) ∧
      (∀ r ∈ rs, tsLe r.2.proposed_tx am.tx = true) ∧
      (∀ x, x ∈ am.deps ↔ ∃ r ∈ rs, x ∈ r.2.deps)) ∧
    ((¬ ∃ r ∈ rs, c.tm.fastQuorum ≤ agreeCount rs r.2) → c.tm.slowQuorum ≤ rs.length →
      ∃ am, dec = some (AcceptOrCommit.Accept am)) ∧
    (rs.length < c.tm.slowQuorum → dec = none) := by
  have hdec : dec = decideProposal c.tm.fastQuorum c.tm.slowQuorum m.id rs := by
    rw [CoordinatorState.store_proposal, hfind] at hsp
    simp at hsp
    rw [hrs]
    exact hsp.2.symm
  rw [hdec]
  exact decideProposal_spec c.tm.fastQuorum c.tm.slowQuorum hS hFS m.id rs

end Accord

namespace Raft

/-!
Embedding of `ConsensusClient::send_rpc_to_leader` from `raft/src/client/mod.rs`.
The network call `do_send_rpc_to_leader` is abstracted as a function from the attempt
index to that attempt's outcome; `TryInto<ForwardToLeader>` is abstracted as a partial
conversion out of the error payload type. -/

abbrev NodeId := Nat

abbrev SocketAddr := Nat

/-- The node record inside `ForwardToLeader`; only `api_addr` is consulted. -/
structure LeaderNode where
  api_addr : SocketAddr
deriving DecidableEq, Repr

/-- `openraft::error::ForwardToLeader`: optional new leader id and node. -/
structure ForwardToLeader where
  leader_id : Option NodeId
  leader_node : Option LeaderNode
deriving DecidableEq, Repr

/-- `RPCError`: a transport failure or an error produced by the remote node. -/
inductive RpcError (E : Type) where
  | Network (err : String)
  | RemoteError (target : NodeId) (source : E)
deriving DecidableEq

/-- The retry condition of the source: the error is a `RemoteError` whose payload
converts into a `ForwardToLeader` carrying both a leader id and a leader node. -/
def forwardInfo (tryInto : E → Option ForwardToLeader) :
    RpcError E → Option (NodeId × LeaderNode)
  | RpcError.Network _ => none
  | RpcError.RemoteError _ source =>
    match tryInto source with
    | none => none
    | some fwd =>
      match fwd.leader_id, fwd.leader_node with
      | some lid, some lnode => some (lid, lnode)
      | _, _ => none

/-- Result of a `send_rpc_to_leader` call: the returned value, the final cached
leader `(id, addr)`, and how many RPC attempts were made. -/
structure RpcOutcome (E Resp : Type) where
  result : Except (RpcError E) Resp
  leader : NodeId × SocketAddr
  attempts : Nat

/-- The retry loop of `send_rpc_to_leader`: issue attempt `attempt`; on success
return; on a forwardable error update the cached leader, decrement `n_retry` and
continue while it stays positive; on any other error return it at once. -/
def send_rpc_loop (tryInto : E → Option ForwardToLeader)
    (rpc : Nat → Except (RpcError E) Resp) (n_retry : Nat)
    (leader : NodeId × SocketAddr) (attempt : Nat) : RpcOutcome E Resp :=
  match rpc attempt with
  | Except.ok x => { result := Except.ok x, leader := leader, attempts := attempt + 1 }
  | Except.error rpc_err =>
    match forwardInfo tryInto rpc_err with
    | some (lid, lnode) =>
      let leader' := (lid, lnode.api_addr)
      if h : 0 < n_retry - 1 then
        send_rpc_loop tryInto rpc (n_retry - 1) leader' (attempt + 1)
      else
        { result := Except.error rpc_err, leader := leader', attempts := attempt + 1 }
    | none =>
      { result := Except.error rpc_err, leader := leader, attempts := attempt + 1 }
termination_by n_retry
decreasing_by omega

/-- `ConsensusClient::send_rpc_to_leader`: at most 3 attempts to find a valid
leader. -/
def send_rpc_to_leader (tryInto : E → Option ForwardToLeader)
    (rpc : Nat → Except (RpcError E) Resp) (leader : NodeId × SocketAddr) :
    RpcOutcome E Resp :=
  send_rpc_loop tryInto rpc 3 leader 0

end Raft

namespace Planner

/-!
Embedding of `SqlQueryPlanner::limit` from `datafusion_ext/src/planner/query.rs`.
`sql_to_expr` (asynchronous, schema- and context-dependent) is abstracted as a
function argument; the datafusion `LogicalPlanBuilder::limit` (external dependency)
wraps the input plan in a `Limit` node. -/

/-- sqlparser literal values; only `Null` is inspected by the planner. -/
inductive Value where
  | Null
  | Number (s : String)
  | OtherValue (tag : Nat)
deriving DecidableEq

/-- sqlparser expressions: a literal value or any other AST shape, opaque. -/
inductive SQLExpr where
  | Value (v : Value)
  | OtherSql (tag : Nat)
deriving DecidableEq

inductive OffsetRows where
  | NoneRows
  | Row
  | Rows
deriving DecidableEq

/-- sqlparser `Offset { value, rows }`; `rows` is never consulted. -/
structure SQLOffset where
  value : SQLExpr
  rows : OffsetRows
deriving DecidableEq

/-- datafusion scalar values; only `Int64` is inspected by the planner. -/
inductive ScalarValue where
  | Int64 (v : Option Int)
  | OtherScalar (tag : Nat)
deriving DecidableEq

/-- datafusion logical expressions: a literal or any other shape, opaque. -/
inductive Expr where
  | Literal (v : ScalarValue)
  | OtherExpr (tag : Nat)
deriving DecidableEq

/-- datafusion error; the planner produces only the `Plan` variant itself, anything
propagated from `sql_to_expr` may be any variant. -/
inductive DataFusionError where
  | Plan (msg : String)
  | SQL (msg : String)
  | NotImplemented (msg : String)
  | External (msg : String)
deriving DecidableEq

/-- Logical plans: `Limit` nodes are what this planner produces; every other plan
shape is opaque. -/
inductive LogicalPlan where
  | Base (tag : Nat)
  | Limit (skip : Nat) (fetch : Option Nat) (input : LogicalPlan)
deriving DecidableEq

/-- `LogicalPlanBuilder::from(input).limit(skip, fetch)?.build()` (external
datafusion dependency): wraps the plan in a `Limit` node. -/
def builder_limit (input : LogicalPlan) (skip : Nat) (fetch : Option Nat) :
    Except DataFusionError LogicalPlan :=
  Except.ok (LogicalPlan.Limit skip fetch input)

/-- `SqlQueryPlanner::limit`, translated from the source.  `sqlToExpr` abstracts
`self.sql_to_expr(_, input.schema(), PlannerContext::new())`. -/
def limit (sqlToExpr : SQLExpr → Except DataFusionError Expr) (input : LogicalPlan)
    (skip : Option SQLOffset) (fetch : Option SQLExpr) :
    Except DataFusionError LogicalPlan :=
  if skip.isNone && fetch.isNone then Except.ok input
  else do
    let skipN ← match skip with
      | some skip_expr => do
        let e ← sqlToExpr skip_expr.value
        match e with
        | Expr.Literal (ScalarValue.Int64 (some s)) =>
          if s < 0 then
            Except.error (DataFusionError.Plan "Offset must be greater or equal 0")
          else Except.ok s.toNat
        | _ => Except.error (DataFusionError.Plan "Unexpected expression in OFFSET clause")
      | none => Except.ok 0
    let fetchN ← match fetch with
      | some limit_expr =>
        if limit_expr ≠ SQLExpr.Value Value.Null then do
          let e ← sqlToExpr limit_expr
          let n ← match e with
            | Expr.Literal (ScalarValue.Int64 (some n)) =>
              if 0 ≤ n then Except.ok n.toNat
              else Except.error (DataFusionError.Plan "LIMIT must not be negative")
            | _ => Except.error (DataFusionError.Plan "LIMIT must not be negative")
          Except.ok (some n)
        else Except.ok (none : Option Nat)
      | none => Except.ok (none : Option Nat)
    builder_limit input skipN fetchN

/-- An expression of the shape `Expr::Literal(ScalarValue::Int64(Some(n)))` with
`n ≥ 0`: the only shape both the OFFSET and the LIMIT arm accept. -/
def isNonNegInt64Lit : Expr → Bool
  | Expr.Literal (ScalarValue.Int64 (some n)) => decide (0 ≤ n)
  | _ => false

end Planner

namespace Accord

/-- A topology with fast-path and slow-path quorum both 2 (3 nodes). -/
def sampleTopology : Topology := { fastQuorum := 2, slowQuorum := 2 }

/-- A tally holding one earlier pre-accept response from peer 2. -/
def samplePropTally : TxTally :=
  { preaccept_responses := [(2, { proposed_tx := ⟨1, 1⟩, deps := ∅ })]
    accept_responses := []
    read_responses := []
    keys := [0]
    command := 7
    kind := TxKind.Write
    decided_tx := ⟨1, 1⟩
    decided_deps := ∅ }

/-- A coordinator driving transaction `(1, 1)` with the tally above. -/
def samplePropCoordinator : CoordinatorState :=
  { tm := sampleTopology, node := 1, counter := 1,
    inflight := [(⟨1, 1⟩, samplePropTally)] }

/-- A driver on node 1 with the coordinator above and an open outbound channel. -/
def samplePropDriver : StateDriver :=
  { coordinator := samplePropCoordinator, replica := { node := 1, clock := 0 },
    outboundOpen := true }

/-- An agreeing pre-accept response from peer 3 for transaction `(1, 1)`. -/
def samplePAOk : PreAcceptOkMsg := { id := ⟨1, 1⟩, proposed_tx := ⟨1, 1⟩, deps := ∅ }

/-- The tally after recording peer 3's agreeing response. -/
def samplePropTally' : TxTally :=
  { samplePropTally with
    preaccept_responses :=
      [(2, { proposed_tx := ⟨1, 1⟩, deps := ∅ }),
       (3, { proposed_tx := ⟨1, 1⟩, deps := ∅ })] }

/-- The coordinator after recording peer 3's agreeing response. -/
def samplePropCoordinator' : CoordinatorState :=
  { samplePropCoordinator with inflight := [(⟨1, 1⟩, samplePropTally')] }

/-- The driver state after handling peer 3's response. -/
def samplePropDriver' : StateDriver :=
  { samplePropDriver with coordinator := samplePropCoordinator' }

/-- The updated response map after peer 3's agreeing response. -/
def sampleRs : List (NodeId × Proposal) :=
  [(2, { proposed_tx := ⟨1, 1⟩, deps := ∅ }),
   (3, { proposed_tx := ⟨1, 1⟩, deps := ∅ })]

/-- The fast-path decision taken on `sampleRs`. -/
def sampleDec : Option AcceptOrCommit :=
  some (AcceptOrCommit.Commit { id := ⟨1, 1⟩, tx := ⟨1, 1⟩, deps := ∅ })

/-- The two messages the fast-path decision enqueues: the commit broadcast then the
self-addressed start-execute. -/
def sampleCommitOuts : List Message :=
  [{ fromNode := 1, toAddr := Address.Peers,
     proto_msg := ProtocolMessage.Commit { id := ⟨1, 1⟩, tx := ⟨1, 1⟩, deps := ∅ } },
   { fromNode := 1, toAddr := Address.Local,
     proto_msg := ProtocolMessage.StartExecute { tx := ⟨1, 1⟩ } }]

/-- A coordinator with no in-flight transactions. -/
def emptyCoordinator : CoordinatorState :=
  { tm := sampleTopology, node := 1, counter := 0, inflight := [] }

/-- A driver on node 1 with no in-flight transactions. -/
def emptyDriver : StateDriver :=
  { coordinator := emptyCoordinator, replica := { node := 1, clock := 0 },
    outboundOpen := true }

/-- A pre-accept payload for a transaction originated at node 2. -/
def samplePreAccept : PreAcceptMsg :=
  { id := ⟨1, 2⟩, t0 := ⟨1, 2⟩, keys := [0], kind := TxKind.Write, command := 7 }

/-- The driver state after witnessing `samplePreAccept`. -/
def sampleDriverAfterPA : StateDriver :=
  { emptyDriver with replica := { node := 1, clock := 1 } }

/-- The reply the simplified replica produces for `samplePreAccept`. -/
def samplePAOkReply : PreAcceptOkMsg :=
  { id := ⟨1, 2⟩, proposed_tx := ⟨1, 1⟩, deps := ∅ }

/-- The unicast reply stream for `samplePreAccept`. -/
def samplePAOuts : List Message :=
  [{ fromNode := 1, toAddr := Address.Peer 2,
     proto_msg := ProtocolMessage.PreAcceptOk samplePAOkReply }]

end Accord

namespace Raft

/-- A conversion that never yields a forward-to-leader hint. -/
def sampleTryInto : Unit → Option ForwardToLeader := fun _ => none

/-- A network that answers every attempt successfully. -/
def sampleRpc : Nat → Except (RpcError Unit) Nat := fun _ => Except.ok 0

end Raft

namespace Planner

/-- An expression converter that always yields the literal `5`. -/
def sampleSqlToExpr : SQLExpr → Except DataFusionError Expr :=
  fun _ => Except.ok (Expr.Literal (ScalarValue.Int64 (some 5)))

end Planner

namespace Accord

theorem send_outbound_open (s : StateDriver) (a : Address) (m : ProtocolMessage)
    (h : s.outboundOpen = true) :
    send_outbound s a m =
      Except.ok { fromNode := s.replica.get_node_id, toAddr := a, proto_msg := m } := by
  simp [send_outbound, h]

theorem send_outbound_closed (s : StateDriver) (a : Address) (m : ProtocolMessage)
    (h : s.outboundOpen = false) :
    send_outbound s a m = Except.error (AccordError.OutboundSend "channel closed") := by
  simp [send_outbound, h]

theorem send_execution_actions_ok (s : StateDriver) (a : Address) :
    ∀ (actions : List ExecutionActionOk) (outs : List Message),
      send_execution_actions s a actions = Except.ok outs →
      outs = actions.map (actionMessage s.replica.get_node_id a) := by
  intro actions
  induction actions with
  | nil =>
    intro outs h
    simp [send_execution_actions] at h
    simp [h.symm]
  | cons hd tl ih =>
    intro outs h
    cases ho : s.outboundOpen with
    | false =>
      cases hd <;>
        simp [send_execution_actions, send_outbound_closed _ _ _ ho, Bind.bind,
          Except.bind] at h
    | true =>
      cases htl : send_execution_actions s a tl with
      | error e =>
        cases hd <;>
          simp [send_execution_actions, send_outbound_open _ _ _ ho, htl, Bind.bind,
            Except.bind] at h
      | ok outs' =>
        cases hd with
        | ReadOk m =>
          simp [send_execution_actions, send_outbound_open _ _ _ ho, htl, Bind.bind,
            Except.bind] at h
          simp [h.symm, actionMessage, ih outs' htl]
        | ApplyOk m =>
          simp [send_execution_actions, send_outbound_open _ _ _ ho, htl, Bind.bind,
            Except.bind] at h
          simp [h.symm, actionMessage, ih outs' htl]

/-- C1: an inbound `PreAcceptOk` handled without error yields exactly one of three
output shapes: a single `Accept` broadcast to `Peers`, a `Commit` broadcast to
`Peers` immediately followed by a `StartExecute` to `Local` carrying the same
transaction id, or no output at all. -/
theorem preacceptok_three_outcomes (h : Handlers) (s : StateDriver) (msg : Message)
    (m : PreAcceptOkMsg) (hm : msg.proto_msg = ProtocolMessage.PreAcceptOk m)
    (s' : StateDriver) (outs : List Message)
    (hok : handle_msg h s msg = Except.ok (s', outs)) :
    outs = [] ∨
    (∃ am : AcceptMsg, outs =
      [{ fromNode := s.replica.get_node_id, toAddr := Address.Peers,
         proto_msg := ProtocolMessage.Accept am }]) ∨
    (∃ cm : CommitMsg, outs =
      [{ fromNode := s.replica.get_node_id, toAddr := Address.Peers,
         proto_msg := ProtocolMessage.Commit cm },
       { fromNode := s.replica.get_node_id, toAddr := Address.Local,
         proto_msg := ProtocolMessage.StartExecute { tx := cm.get_id } }]) := by
  obtain ⟨frm, ta, pm⟩ := msg
  simp only at hm
  subst hm
  cases hsp : h.store_proposal s.coordinator frm m with
  | error e => simp [handle_msg, hsp, Bind.bind, Except.bind] at hok
  | ok res =>
    obtain ⟨c, dec⟩ := res
    cases dec with
    | none =>
      simp [handle_msg, hsp, Bind.bind, Except.bind] at hok
      exact Or.inl hok.2
    | some d =>
      cases ho : s.outboundOpen with
      | false =>
        cases d <;>
          simp [handle_msg, hsp, Bind.bind, Except.bind, send_outbound, ho] at hok
      | true =>
        cases d with
        | Accept am =>
          simp [handle_msg, hsp, Bind.bind, Except.bind, send_outbound, ho] at hok
          exact Or.inr (Or.inl ⟨am, hok.2.symm⟩)
        | Commit cm =>
          simp [handle_msg, hsp, Bind.bind, Except.bind, send_outbound, ho] at hok
          exact Or.inr (Or.inr ⟨cm, hok.2.symm⟩)

/-- C6: handling an inbound `Commit` enqueues no outbound message and leaves the
coordinator untouched; handling an inbound `ApplyOk` enqueues no outbound message
and leaves the whole driver state unchanged. -/
theorem commit_applyok_no_outbound (h : Handlers) (s : StateDriver) (msg : Message)
    (s' : StateDriver) (outs : List Message)
    (hok : handle_msg h s msg = Except.ok (s', outs)) :
    (∀ m : CommitMsg, msg.proto_msg = ProtocolMessage.Commit m →
      outs = [] ∧ s'.coordinator = s.coordinator ∧ s'.outboundOpen = s.outboundOpen) ∧
    (∀ m : ApplyOkMsg, msg.proto_msg = ProtocolMessage.ApplyOk m →
      outs = [] ∧ s' = s) := by
  obtain ⟨frm, ta, pm⟩ := msg
  constructor
  · intro m hm
    simp only at hm
    subst hm
    cases hrc : h.receive_commit s.replica m with
    | error e => simp [handle_msg, hrc, Bind.bind, Except.bind] at hok
    | ok r =>
      simp [handle_msg, hrc, Bind.bind, Except.bind] at hok
      obtain ⟨h1, h2⟩ := hok
      simp [h1.symm, h2.symm]
  · intro m hm
    simp only at hm
    subst hm
    simp [handle_msg] at hok
    obtain ⟨h1, h2⟩ := hok
    simp [h1.symm, h2.symm]

/-- C5: `send_outbound` wraps the payload with `from` equal to this node's own id and
exactly the destination it was given; when the outbound channel cannot accept the
message it returns an `OutboundSend` error; and any error returned by a handler makes
the `start` loop terminate with that error. -/
theorem send_outbound_wraps_and_fatal (s : StateDriver) (a : Address)
    (pm : ProtocolMessage) :
    (s.outboundOpen = true →
      send_outbound s a pm =
        Except.ok { fromNode := s.replica.get_node_id, toAddr := a, proto_msg := pm }) ∧
    (s.outboundOpen = false →
      ∃ str, send_outbound s a pm = Except.error (AccordError.OutboundSend str)) ∧
    (∀ (h : Handlers) (msg : Message) (rest : List Message) (e : AccordError),
      handle_msg h s msg = Except.error e →
      start h s (msg :: rest) = Except.error e) := by
  refine ⟨fun ho => send_outbound_open s a pm ho,
    fun ho => ⟨"channel closed", send_outbound_closed s a pm ho⟩, ?_⟩
  intro h msg rest e he
  simp [start, he, Bind.bind, Except.bind]

/-- C8: each replica-side inbound message is answered to its sender: a `PreAccept`
with a `PreAcceptOk` unicast to `Peer(from)`, an `Accept` with an `AcceptOk` unicast
to `Peer(from)`, and the execution actions of `receive_read` / `receive_apply` are
each routed to `Peer(from)`, in the order they were produced. -/
theorem replica_replies_to_sender (h : Handlers) (s : StateDriver) (msg : Message)
    (s' : StateDriver) (outs : List Message)
    (hok : handle_msg h s msg = Except.ok (s', outs)) :
    (∀ (m : PreAcceptMsg) (r : ReplicaState) (ok : PreAcceptOkMsg),
      msg.proto_msg = ProtocolMessage.PreAccept m →
      h.receive_preaccept s.replica m = (r, ok) →
      outs = [{ fromNode := r.get_node_id, toAddr := Address.Peer msg.fromNode,
                proto_msg := ProtocolMessage.PreAcceptOk ok }]) ∧
    (∀ (m : AcceptMsg) (r : ReplicaState) (ok : AcceptOkMsg),
      msg.proto_msg = ProtocolMessage.Accept m →
      h.receive_accept s.replica m = (r, ok) →
      outs = [{ fromNode := r.get_node_id, toAddr := Address.Peer msg.fromNode,
                proto_msg := ProtocolMessage.AcceptOk ok }]) ∧
    (∀ (m : ReadMsg) (r : ReplicaState) (actions : List ExecutionActionOk),
      msg.proto_msg = ProtocolMessage.Read m →
      h.receive_read s.replica m = Except.ok (r, actions) →
      outs = actions.map (actionMessage r.get_node_id (Address.Peer msg.fromNode))) ∧
    (∀ (m : ApplyMsg) (r : ReplicaState) (actions : List ExecutionActionOk),
      msg.proto_msg = ProtocolMessage.Apply m →
      h.receive_apply s.replica m = Except.ok (r, actions) →
      outs = actions.map (actionMessage r.get_node_id (Address.Peer msg.fromNode))) := by
  obtain ⟨frm, ta, pm⟩ := msg
  refine ⟨?_, ?_, ?_, ?_⟩
  · intro m r rok hm hrcv
    simp only at hm
    subst hm
    cases ho : s.outboundOpen with
    | false => simp [handle_msg, hrcv, send_outbound, ho, Bind.bind, Except.bind] at hok
    | true =>
      simp [handle_msg, hrcv, send_outbound, ho, Bind.bind, Except.bind] at hok
      exact hok.2.symm
  · intro m r rok hm hrcv
    simp only at hm
    subst hm
    cases ho : s.outboundOpen with
    | false => simp [handle_msg, hrcv, send_outbound, ho, Bind.bind, Except.bind] at hok
    | true =>
      simp [handle_msg, hrcv, send_outbound, ho, Bind.bind, Except.bind] at hok
      exact hok.2.symm
  · intro m r actions hm hrcv
    simp only at hm
    subst hm
    simp [handle_msg, hrcv, Bind.bind, Except.bind] at hok
    cases hsea : send_execution_actions { s with replica := r } (Address.Peer frm) actions with
    | error e => rw [hsea] at hok; simp at hok
    | ok outs0 =>
      rw [hsea] at hok
      simp at hok
      have := send_execution_actions_ok { s with replica := r } (Address.Peer frm)
        actions outs0 hsea
      simpa [hok.2.symm] using this
  · intro m r actions hm hrcv
    simp only at hm
    subst hm
    simp [handle_msg, hrcv, Bind.bind, Except.bind] at hok
    cases hsea : send_execution_actions { s with replica := r } (Address.Peer frm) actions with
    | error e => rw [hsea] at hok; simp at hok
    | ok outs0 =>
      rw [hsea] at hok
      simp at hok
      have := send_execution_actions_ok { s with replica := r } (Address.Peer frm)
        actions outs0 hsea
      simpa [hok.2.symm] using this

theorem handle_msg_out_shapes (h : Handlers) (s : StateDriver) (msg : Message)
    (s' : StateDriver) (outs : List Message)
    (hok : handle_msg h s msg = Except.ok (s', outs)) :
    (∀ x ∈ outs, ∀ sei : StartExecuteInternal,
        x.proto_msg ≠ ProtocolMessage.StartExecute sei) ∨
    (∃ n cm, outs =
      [{ fromNode := n, toAddr := Address.Peers, proto_msg := ProtocolMessage.Commit cm },
       { fromNode := n, toAddr := Address.Local,
         proto_msg := ProtocolMessage.StartExecute { tx := cm.get_id } }]) := by
  obtain ⟨frm, ta, pm⟩ := msg
  cases pm with
  | BeginRead keys command =>
    rcases hnew : h.new_read_tx s.coordinator keys command with ⟨c, pam⟩
    cases ho : s.outboundOpen with
    | false => simp [handle_msg, hnew, send_outbound, ho, Bind.bind, Except.bind] at hok
    | true =>
      simp [handle_msg, hnew, send_outbound, ho, Bind.bind, Except.bind] at hok
      left
      simp [hok.2.symm]
  | BeginWrite keys command =>
    rcases hnew : h.new_write_tx s.coordinator keys command with ⟨c, pam⟩
    cases ho : s.outboundOpen with
    | false => simp [handle_msg, hnew, send_outbound, ho, Bind.bind, Except.bind] at hok
    | true =>
      simp [handle_msg, hnew, send_outbound, ho, Bind.bind, Except.bind] at hok
      left
      simp [hok.2.symm]
  | StartExecute m =>
    cases hse : h.start_execute s.coordinator m with
    | error e => simp [handle_msg, hse, Bind.bind, Except.bind] at hok
    | ok p =>
      obtain ⟨c, rm⟩ := p
      cases ho : s.outboundOpen with
      | false => simp [handle_msg, hse, send_outbound, ho, Bind.bind, Except.bind] at hok
      | true =>
        simp [handle_msg, hse, send_outbound, ho, Bind.bind, Except.bind] at hok
        left
        simp [hok.2.symm]
  | PreAccept m =>
    rcases hrcv : h.receive_preaccept s.replica m with ⟨r, rok⟩
    cases ho : s.outboundOpen with
    | false => simp [handle_msg, hrcv, send_outbound, ho, Bind.bind, Except.bind] at hok
    | true =>
      simp [handle_msg, hrcv, send_outbound, ho, Bind.bind, Except.bind] at hok
      left
      simp [hok.2.symm]
  | PreAcceptOk m =>
    cases hsp : h.store_proposal s.coordinator frm m with
    | error e => simp [handle_msg, hsp, Bind.bind, Except.bind] at hok
    | ok res =>
      obtain ⟨c, dec⟩ := res
      cases dec with
      | none =>
        simp [handle_msg, hsp, Bind.bind, Except.bind] at hok
        left
        simp [hok.2]
      | some d =>
        cases ho : s.outboundOpen with
        | false =>
          cases d <;>
            simp [handle_msg, hsp, Bind.bind, Except.bind, send_outbound, ho] at hok
        | true =>
          cases d with
          | Accept am =>
            simp [handle_msg, hsp, Bind.bind, Except.bind, send_outbound, ho] at hok
            left
            simp [hok.2.symm]
          | Commit cm =>
            simp [handle_msg, hsp, Bind.bind, Except.bind, send_outbound, ho] at hok
            right
            exact ⟨s.replica.get_node_id, cm, hok.2.symm⟩
  | Accept m =>
    rcases hrcv : h.receive_accept s.replica m with ⟨r, rok⟩
    cases ho : s.outboundOpen with
    | false => simp [handle_msg, hrcv, send_outbound, ho, Bind.bind, Except.bind] at hok
    | true =>
      simp [handle_msg, hrcv, send_outbound, ho, Bind.bind, Except.bind] at hok
      left
      simp [hok.2.symm]
  | AcceptOk m =>
    cases hsa : h.store_accept_ok s.coordinator frm m with
    | error e => simp [handle_msg, hsa, Bind.bind, Except.bind] at hok
    | ok res =>
      obtain ⟨c, dec⟩ := res
      cases dec with
      | none =>
        simp [handle_msg, hsa, Bind.bind, Except.bind] at hok
        left
        simp [hok.2]
      | some cm =>
        cases ho : s.outboundOpen with
        | false =>
          simp [handle_msg, hsa, Bind.bind, Except.bind, send_outbound, ho] at hok
        | true =>
          simp [handle_msg, hsa, Bind.bind, Except.bind, send_outbound, ho] at hok
          right
          exact ⟨s.replica.get_node_id, cm, hok.2.symm⟩
  | Commit m =>
    cases hrc : h.receive_commit s.replica m with
    | error e => simp [handle_msg, hrc, Bind.bind, Except.bind] at hok
    | ok r =>
      simp [handle_msg, hrc, Bind.bind, Except.bind] at hok
      left
      simp [hok.2]
  | Read m =>
    cases hrr : h.receive_read s.replica m with
    | error e => simp [handle_msg, hrr, Bind.bind, Except.bind] at hok
    | ok p =>
      obtain ⟨r, actions⟩ := p
      simp [handle_msg, hrr, Bind.bind, Except.bind] at hok
      cases hsea : send_execution_actions { s with replica := r } (Address.Peer frm)
          actions with
      | error e => rw [hsea] at hok; simp at hok
      | ok outs0 =>
        rw [hsea] at hok
        simp at hok
        have hmap := send_execution_actions_ok { s with replica := r } (Address.Peer frm)
          actions outs0 hsea
        left
        intro x hx sei
        rw [hok.2.symm, hmap] at hx
        obtain ⟨a, _, hax⟩ := List.mem_map.mp hx
        cases a <;> simp [actionMessage] at hax <;> simp [hax.symm, actionMessage]
  | ReadOk m =>
    cases hro : h.store_read_ok s.coordinator m with
    | error e => simp [handle_msg, hro, Bind.bind, Except.bind] at hok
    | ok res =>
      obtain ⟨c, dec⟩ := res
      cases dec with
      | none =>
        simp [handle_msg, hro, Bind.bind, Except.bind] at hok
        left
        simp [hok.2]
      | some am =>
        cases ho : s.outboundOpen with
        | false =>
          simp [handle_msg, hro, Bind.bind, Except.bind, send_outbound, ho] at hok
        | true =>
          simp [handle_msg, hro, Bind.bind, Except.bind, send_outbound, ho] at hok
          left
          simp [hok.2.symm]
  | Apply m =>
    cases hra : h.receive_apply s.replica m with
    | error e => simp [handle_msg, hra, Bind.bind, Except.bind] at hok
    | ok p =>
      obtain ⟨r, actions⟩ := p
      simp [handle_msg, hra, Bind.bind, Except.bind] at hok
      cases hsea : send_execution_actions { s with replica := r } (Address.Peer frm)
          actions with
      | error e => rw [hsea] at hok; simp at hok
      | ok outs0 =>
        rw [hsea] at hok
        simp at hok
        have hmap := send_execution_actions_ok { s with replica := r } (Address.Peer frm)
          actions outs0 hsea
        left
        intro x hx sei
        rw [hok.2.symm, hmap] at hx
        obtain ⟨a, _, hax⟩ := List.mem_map.mp hx
        cases a <;> simp [actionMessage] at hax <;> simp [hax.symm, actionMessage]
  | ApplyOk m =>
    simp [handle_msg] at hok
    left
    simp [hok.2]

/-- C2: whenever a successfully handled inbound message produces a self-addressed
`StartExecute`, a `Commit` broadcast to `Peers` for the same transaction id occurs
strictly earlier in the enqueue order; a `StartExecute` is never enqueued before its
`Commit`. -/
theorem startexecute_after_commit (h : Handlers) (s : StateDriver) (msg : Message)
    (s' : StateDriver) (outs : List Message)
    (hok : handle_msg h s msg = Except.ok (s', outs))
    (i : Nat) (se : Message) (hi : outs.get? i = some se)
    (sei : StartExecuteInternal) (hse : se.proto_msg = ProtocolMessage.StartExecute sei) :
    ∃ j cm, j < i ∧
      outs.get? j = some { fromNode := se.fromNode, toAddr := Address.Peers,
                           proto_msg := ProtocolMessage.Commit cm } ∧
      cm.get_id = sei.tx := by
  rcases handle_msg_out_shapes h s msg s' outs hok with hall | ⟨n, cm, houts⟩
  · exact absurd hse (hall se (List.get?_mem hi) sei)
  · subst houts
    cases i with
    | zero =>
      simp at hi
      rw [hi.symm] at hse
      simp at hse
    | succ i' =>
      cases i' with
      | zero =>
        simp at hi
        rw [hi.symm] at hse
        simp at hse
        refine ⟨0, cm, Nat.zero_lt_one, ?_, congrArg StartExecuteInternal.tx hse⟩
        simp [hi.symm]
      | succ i'' => simp at hi

/-- C7: on a finite inbound sequence, `start` handles the messages in arrival order
and returns successfully exactly when every message is handled without error, and
returns an error exactly when that error is the first handler failure along the
sequence. -/
theorem start_returns_on_close_or_error (h : Handlers) :
    ∀ (msgs : List Message) (s : StateDriver),
      ((∃ r, start h s msgs = Except.ok r) ↔ allHandledOk h s msgs) ∧
      (∀ e, start h s msgs = Except.error e ↔ firstErrorIs h e s msgs) := by
  intro msgs
  induction msgs with
  | nil =>
    intro s
    constructor
    · simp [start, allHandledOk]
    · intro e
      simp [start, firstErrorIs]
  | cons m rest ih =>
    intro s
    cases hm : handle_msg h s m with
    | error e' =>
      have h1 : start h s (m :: rest) = Except.error e' := by
        simp [start, hm, Bind.bind, Except.bind]
      constructor
      · constructor
        · rintro ⟨r, hr⟩
          rw [h1] at hr
          exact absurd hr (by simp)
        · intro hall
          simp only [allHandledOk] at hall
          obtain ⟨s2, outs2, h2, _⟩ := hall
          rw [hm] at h2
          exact absurd h2 (by simp)
      · intro e
        simp only [firstErrorIs]
        constructor
        · intro herr
          rw [h1] at herr
          injection herr with hee
          exact Or.inl (by rw [hm, hee])
        · rintro (hee | ⟨s2, outs2, h2, _⟩)
          · rw [hm] at hee
            injection hee with hee
            rw [h1, hee]
          · rw [hm] at h2
            exact absurd h2 (by simp)
    | ok p =>
      obtain ⟨s', outs⟩ := p
      have hstep : start h s (m :: rest) =
          (match start h s' rest with
           | Except.ok r => Except.ok (r.1, outs ++ r.2)
           | Except.error e => Except.error e) := by
        cases hrest : start h s' rest <;>
          simp [start, hm, hrest, Bind.bind, Except.bind]
      constructor
      · constructor
        · rintro ⟨r, hr⟩
          rw [hstep] at hr
          cases hrest : start h s' rest with
          | error e0 =>
            rw [hrest] at hr
            exact absurd hr (by simp)
          | ok r0 =>
            exact ⟨s', outs, hm, (ih s').1.mp ⟨r0, hrest⟩⟩
        · intro hall
          simp only [allHandledOk] at hall
          obtain ⟨s2, outs2, h2, hall2⟩ := hall
          have h2' : s2 = s' ∧ outs2 = outs := by
            rw [hm] at h2
            injection h2 with hx
            exact ⟨(congrArg Prod.fst hx).symm, (congrArg Prod.snd hx).symm⟩
          obtain ⟨r0, hrest⟩ := (ih s').1.mpr (h2'.1 ▸ hall2)
          exact ⟨(r0.1, outs ++ r0.2), by rw [hstep, hrest]⟩
      · intro e
        simp only [firstErrorIs]
        constructor
        · intro herr
          rw [hstep] at herr
          cases hrest : start h s' rest with
          | error e0 =>
            rw [hrest] at herr
            injection herr with he0
            exact Or.inr ⟨s', outs, hm, ((ih s').2 e).mp (he0 ▸ hrest)⟩
          | ok r0 =>
            rw [hrest] at herr
            exact absurd herr (by simp)
        · rintro (hee | ⟨s2, outs2, h2, hfe2⟩)
          · rw [hm] at hee
            exact absurd hee (by simp)
          · have h2' : s2 = s' ∧ outs2 = outs := by
              rw [hm] at h2
              injection h2 with hx
              exact ⟨(congrArg Prod.fst hx).symm, (congrArg Prod.snd hx).symm⟩
            have hrest := ((ih s').2 e).mpr (h2'.1 ▸ hfe2)
            rw [hstep, hrest]

end Accord

namespace Raft

/-- C9: `send_rpc_to_leader` always terminates after at most 3 RPC attempts; the
value returned is exactly the outcome of the last attempt; every non-final attempt
failed with a `RemoteError` convertible to a `ForwardToLeader` carrying both a leader
id and a leader node; and on any other first-attempt failure the error is returned
immediately after a single attempt, with the cached leader untouched. -/
theorem send_rpc_to_leader_retries {E Resp : Type}
    (tryInto : E → Option ForwardToLeader)
    (rpc : Nat → Except (RpcError E) Resp) (leader : NodeId × SocketAddr) :
    1 ≤ (send_rpc_to_leader tryInto rpc leader).attempts ∧
    (send_rpc_to_leader tryInto rpc leader).attempts ≤ 3 ∧
    (send_rpc_to_leader tryInto rpc leader).result =
      rpc ((send_rpc_to_leader tryInto rpc leader).attempts - 1) ∧
    (∀ i, i + 1 < (send_rpc_to_leader tryInto rpc leader).attempts →
      ∃ e, rpc i = Except.error e ∧ (forwardInfo tryInto e).isSome = true) ∧
    (∀ e, rpc 0 = Except.error e → forwardInfo tryInto e = none →
      send_rpc_to_leader tryInto rpc leader =
        { result := Except.error e, leader := leader, attempts := 1 }) := by
  cases h0 : rpc 0 with
  | ok x =>
    have hres : send_rpc_to_leader tryInto rpc leader =
        { result := Except.ok x, leader := leader, attempts := 1 } := by
      rw [send_rpc_to_leader, send_rpc_loop]
      simp [h0]
    rw [hres]
    refine ⟨by simp, by simp, by simp [h0], ?_, ?_⟩
    · intro i hi
      simp at hi
    · intro e he
      exact absurd he (by simp)
  | error e0 =>
    cases hf0 : forwardInfo tryInto e0 with
    | none =>
      have hres : send_rpc_to_leader tryInto rpc leader =
          { result := Except.error e0, leader := leader, attempts := 1 } := by
        rw [send_rpc_to_leader, send_rpc_loop]
        simp [h0, hf0]
      rw [hres]
      refine ⟨by simp, by simp, by simp [h0], ?_, ?_⟩
      · intro i hi
        simp at hi
      · intro e he hfe
        injection he with he
        rw [he]
    | some p0 =>
      obtain ⟨lid0, ln0⟩ := p0
      have hstep1 : send_rpc_to_leader tryInto rpc leader =
          send_rpc_loop tryInto rpc 2 (lid0, ln0.api_addr) 1 := by
        rw [send_rpc_to_leader, send_rpc_loop]
        simp [h0, hf0]
      have hconj5 : ∀ e : RpcError E,
          (Except.error e0 : Except (RpcError E) Resp) = Except.error e →
          forwardInfo tryInto e = none →
          send_rpc_to_leader tryInto rpc leader =
            { result := Except.error e, leader := leader, attempts := 1 } := by
        intro e he hfe
        injection he with he
        rw [← he] at hfe
        rw [hf0] at hfe
        exact absurd hfe (by simp)
      cases h1 : rpc 1 with
      | ok x =>
        have hres : send_rpc_to_leader tryInto rpc leader =
            { result := Except.ok x, leader := (lid0, ln0.api_addr), attempts := 2 } := by
          rw [hstep1, send_rpc_loop]
          simp [h1]
        rw [hres] at hconj5 ⊢
        refine ⟨by simp, by simp, by simp [h1], ?_, hconj5⟩
        intro i hi
        simp at hi
        rcases i with _ | i
        · exact ⟨e0, h0, by simp [hf0]⟩
        · omega
      | error e1 =>
        cases hf1 : forwardInfo tryInto e1 with
        | none =>
          have hres : send_rpc_to_leader tryInto rpc leader =
              { result := Except.error e1, leader := (lid0, ln0.api_addr),
                attempts := 2 } := by
            rw [hstep1, send_rpc_loop]
            simp [h1, hf1]
          rw [hres] at hconj5 ⊢
          refine ⟨by simp, by simp, by simp [h1], ?_, hconj5⟩
          intro i hi
          simp at hi
          rcases i with _ | i
          · exact ⟨e0, h0, by simp [hf0]⟩
          · omega
        | some p1 =>
          obtain ⟨lid1, ln1⟩ := p1
          have hstep2 : send_rpc_to_leader tryInto rpc leader =
              send_rpc_loop tryInto rpc 1 (lid1, ln1.api_addr) 2 := by
            rw [hstep1, send_rpc_loop]
            simp [h1, hf1]
          cases h2 : rpc 2 with
          | ok x =>
            have hres : send_rpc_to_leader tryInto rpc leader =
                { result := Except.ok x, leader := (lid1, ln1.api_addr),
                  attempts := 3 } := by
              rw [hstep2, send_rpc_loop]
              simp [h2]
            rw [hres] at hconj5 ⊢
            refine ⟨by simp, by simp, by simp [h2], ?_, hconj5⟩
            intro i hi
            simp at hi
            rcases i with _ | _ | i
            · exact ⟨e0, h0, by simp [hf0]⟩
            · exact ⟨e1, h1, by simp [hf1]⟩
            · omega
          | error e2 =>
            cases hf2 : forwardInfo tryInto e2 with
            | none =>
              have hres : send_rpc_to_leader tryInto rpc leader =
                  { result := Except.error e2, leader := (lid1, ln1.api_addr),
                    attempts := 3 } := by
                rw [hstep2, send_rpc_loop]
                simp [h2, hf2]
              rw [hres] at hconj5 ⊢
              refine ⟨by simp, by simp, by simp [h2], ?_, hconj5⟩
              intro i hi
              simp at hi
              rcases i with _ | _ | i
              · exact ⟨e0, h0, by simp [hf0]⟩
              · exact ⟨e1, h1, by simp [hf1]⟩
              · omega
            | some p2 =>
              obtain ⟨lid2, ln2⟩ := p2
              have hres : send_rpc_to_leader tryInto rpc leader =
                  { result := Except.error e2, leader := (lid2, ln2.api_addr),
                    attempts := 3 } := by
                rw [hstep2, send_rpc_loop]
                simp [h2, hf2]
              rw [hres] at hconj5 ⊢
              refine ⟨by simp, by simp, by simp [h2], ?_, hconj5⟩
              intro i hi
              simp at hi
              rcases i with _ | _ | i
              · exact ⟨e0, h0, by simp [hf0]⟩
              · exact ⟨e1, h1, by simp [hf1]⟩
              · omega

end Raft

namespace Planner

theorem isNonNegInt64Lit_true (e : Expr) :
    isNonNegInt64Lit e = true ↔
      ∃ n : Int, e = Expr.Literal (ScalarValue.Int64 (some n)) ∧ 0 ≤ n := by
  cases e with
  | Literal v =>
    cases v with
    | Int64 vo =>
      cases vo with
      | none => simp [isNonNegInt64Lit]
      | some n => simp [isNonNegInt64Lit]
    | OtherScalar t => simp [isNonNegInt64Lit]
  | OtherExpr t => simp [isNonNegInt64Lit]

theorem limit_offset_bad (sqlToExpr : SQLExpr → Except DataFusionError Expr)
    (input : LogicalPlan) (o : SQLOffset) (fetch : Option SQLExpr) (eo : Expr)
    (hev : sqlToExpr o.value = Except.ok eo) (hnn : isNonNegInt64Lit eo = false) :
    ∃ msg, limit sqlToExpr input (some o) fetch = Except.error (DataFusionError.Plan msg) := by
  cases eo with
  | Literal v =>
    cases v with
    | Int64 vo =>
      cases vo with
      | none =>
        exact ⟨"Unexpected expression in OFFSET clause",
          by simp [limit, Bind.bind, Except.bind, hev]⟩
      | some s =>
        have hs : s < 0 := by
          simp [isNonNegInt64Lit] at hnn
          omega
        exact ⟨"Offset must be greater or equal 0",
          by simp [limit, Bind.bind, Except.bind, hev, hs]⟩
    | OtherScalar t =>
      exact ⟨"Unexpected expression in OFFSET clause",
        by simp [limit, Bind.bind, Except.bind, hev]⟩
  | OtherExpr t =>
    exact ⟨"Unexpected expression in OFFSET clause",
      by simp [limit, Bind.bind, Except.bind, hev]⟩

end Planner

namespace Planner

theorem limit_skip_none_fetch_null (sqlToExpr : SQLExpr → Except DataFusionError Expr)
    (input : LogicalPlan) :
    limit sqlToExpr input none (some (SQLExpr.Value Value.Null)) =
      Except.ok (LogicalPlan.Limit 0 none input) := by
  simp [limit, Bind.bind, Except.bind, builder_limit]

theorem limit_skip_none_fetch_good (sqlToExpr : SQLExpr → Except DataFusionError Expr)
    (input : LogicalPlan) (le : SQLExpr) (n : Int)
    (hle : le ≠ SQLExpr.Value Value.Null)
    (hev : sqlToExpr le = Except.ok (Expr.Literal (ScalarValue.Int64 (some n))))
    (hn0 : 0 ≤ n) :
    limit sqlToExpr input none (some le) =
      Except.ok (LogicalPlan.Limit 0 (some n.toNat) input) := by
  simp [limit, Bind.bind, Except.bind, builder_limit, hle, hev, hn0]

theorem limit_fetch_bad_skip_none (sqlToExpr : SQLExpr → Except DataFusionError Expr)
    (input : LogicalPlan) (le : SQLExpr) (ef : Expr)
    (hle : le ≠ SQLExpr.Value Value.Null)
    (hev : sqlToExpr le = Except.ok ef) (hnn : isNonNegInt64Lit ef = false) :
    limit sqlToExpr input none (some le) =
      Except.error (DataFusionError.Plan "LIMIT must not be negative") := by
  cases ef with
  | Literal v =>
    cases v with
    | Int64 vo =>
      cases vo with
      | none => simp [limit, Bind.bind, Except.bind, hle, hev]
      | some n =>
        have hn : ¬ (0 ≤ n) := by
          simp [isNonNegInt64Lit] at hnn
          omega
        simp [limit, Bind.bind, Except.bind, hle, hev, hn]
    | OtherScalar t => simp [limit, Bind.bind, Except.bind, hle, hev]
  | OtherExpr t => simp [limit, Bind.bind, Except.bind, hle, hev]

theorem limit_skip_good_fetch_none (sqlToExpr : SQLExpr → Except DataFusionError Expr)
    (input : LogicalPlan) (o : SQLOffset) (s : Int)
    (hev : sqlToExpr o.value = Except.ok (Expr.Literal (ScalarValue.Int64 (some s))))
    (hs0 : 0 ≤ s) :
    limit sqlToExpr input (some o) none =
      Except.ok (LogicalPlan.Limit s.toNat none input) := by
  have hs : ¬ s < 0 := by omega
  simp [limit, Bind.bind, Except.bind, builder_limit, hev, hs]

theorem limit_skip_good_fetch_null (sqlToExpr : SQLExpr → Except DataFusionError Expr)
    (input : LogicalPlan) (o : SQLOffset) (s : Int)
    (hev : sqlToExpr o.value = Except.ok (Expr.Literal (ScalarValue.Int64 (some s))))
    (hs0 : 0 ≤ s) :
    limit sqlToExpr input (some o) (some (SQLExpr.Value Value.Null)) =
      Except.ok (LogicalPlan.Limit s.toNat none input) := by
  have hs : ¬ s < 0 := by omega
  simp [limit, Bind.bind, Except.bind, builder_limit, hev, hs]

theorem limit_skip_good_fetch_good (sqlToExpr : SQLExpr → Except DataFusionError Expr)
    (input : LogicalPlan) (o : SQLOffset) (s : Int) (le : SQLExpr) (n : Int)
    (hevO : sqlToExpr o.value = Except.ok (Expr.Literal (ScalarValue.Int64 (some s))))
    (hs0 : 0 ≤ s)
    (hle : le ≠ SQLExpr.Value Value.Null)
    (hevF : sqlToExpr le = Except.ok (Expr.Literal (ScalarValue.Int64 (some n))))
    (hn0 : 0 ≤ n) :
    limit sqlToExpr input (some o) (some le) =
      Except.ok (LogicalPlan.Limit s.toNat (some n.toNat) input) := by
  have hs : ¬ s < 0 := by omega
  simp [limit, Bind.bind, Except.bind, builder_limit, hevO, hs, hle, hevF, hn0]

theorem limit_fetch_bad_skip_good (sqlToExpr : SQLExpr → Except DataFusionError Expr)
    (input : LogicalPlan) (o : SQLOffset) (s : Int) (le : SQLExpr) (ef : Expr)
    (hevO : sqlToExpr o.value = Except.ok (Expr.Literal (ScalarValue.Int64 (some s))))
    (hs0 : 0 ≤ s)
    (hle : le ≠ SQLExpr.Value Value.Null)
    (hevF : sqlToExpr le = Except.ok ef) (hnn : isNonNegInt64Lit ef = false) :
    limit sqlToExpr input (some o) (some le) =
      Except.error (DataFusionError.Plan "LIMIT must not be negative") := by
  have hs : ¬ s < 0 := by omega
  cases ef with
  | Literal v =>
    cases v with
    | Int64 vo =>
      cases vo with
      | none => simp [limit, Bind.bind, Except.bind, hevO, hs, hle, hevF]
      | some n =>
        have hn : ¬ (0 ≤ n) := by
          simp [isNonNegInt64Lit] at hnn
          omega
        simp [limit, Bind.bind, Except.bind, hevO, hs, hle, hevF, hn]
    | OtherScalar t => simp [limit, Bind.bind, Except.bind, hevO, hs, hle, hevF]
  | OtherExpr t => simp [limit, Bind.bind, Except.bind, hevO, hs, hle, hevF]

end Planner

namespace Planner

/-- C10: `limit` returns the input plan unchanged when both OFFSET and LIMIT are
absent; given that `sql_to_expr` succeeds on the operative expressions, it returns
a `Plan` error exactly when a present OFFSET does not evaluate to a non-negative
`Int64` literal or a present non-`NULL` LIMIT does not evaluate to a non-negative
`Int64` literal; and a LIMIT equal to the SQL `NULL` literal imposes no fetch
limit. -/
theorem limit_unchanged_and_plan_error_iff
    (sqlToExpr : SQLExpr → Except DataFusionError Expr)
    (input : LogicalPlan) (skip : Option SQLOffset) (fetch : Option SQLExpr)
    (hO : ∀ o, skip = some o → ∃ eo, sqlToExpr o.value = Except.ok eo)
    (hF : ∀ le, fetch = some le → le ≠ SQLExpr.Value Value.Null →
      ∃ ef, sqlToExpr le = Except.ok ef) :
    (skip = none → fetch = none → limit sqlToExpr input skip fetch = Except.ok input) ∧
    ((∃ msg, limit sqlToExpr input skip fetch =
        Except.error (DataFusionError.Plan msg)) ↔
      ((∃ o eo, skip = some o ∧ sqlToExpr o.value = Except.ok eo ∧
        isNonNegInt64Lit eo = false) ∨
       (∃ le ef, fetch = some le ∧ le ≠ SQLExpr.Value Value.Null ∧
        sqlToExpr le = Except.ok ef ∧ isNonNegInt64Lit ef = false))) ∧
    (fetch = some (SQLExpr.Value Value.Null) → skip = none →
      limit sqlToExpr input skip fetch = Except.ok (LogicalPlan.Limit 0 none input)) := by
  rcases skip with _ | o
  · rcases fetch with _ | le
    · refine ⟨fun _ _ => by simp [limit], ?_, ?_⟩
      · constructor
        · rintro ⟨msg, hmsg⟩
          rw [show limit sqlToExpr input none none = Except.ok input from by simp [limit]]
            at hmsg
          exact absurd hmsg (by simp)
        · rintro (⟨o, eo, hso, _⟩ | ⟨le, ef, hfe, _⟩)
          · exact absurd hso (by simp)
          · exact absurd hfe (by simp)
      · intro hn _
        exact absurd hn (by simp)
    · by_cases hle : le = SQLExpr.Value Value.Null
      · subst hle
        have hlim := limit_skip_none_fetch_null sqlToExpr input
        refine ⟨fun _ hf => absurd hf (by simp), ?_, fun _ _ => hlim⟩
        constructor
        · rintro ⟨msg, hmsg⟩
          rw [hlim] at hmsg
          exact absurd hmsg (by simp)
        · rintro (⟨o, eo, hso, _⟩ | ⟨le', ef, hfe, hne, _⟩)
          · exact absurd hso (by simp)
          · injection hfe with h
            exact absurd h.symm hne
      · obtain ⟨ef, hef⟩ := hF le rfl hle
        cases hnn : isNonNegInt64Lit ef with
        | true =>
          obtain ⟨n, hefl, hn0⟩ := (isNonNegInt64Lit_true ef).mp hnn
          subst hefl
          have hlim := limit_skip_none_fetch_good sqlToExpr input le n hle hef hn0
          refine ⟨fun _ hf => absurd hf (by simp), ?_, ?_⟩
          · constructor
            · rintro ⟨msg, hmsg⟩
              rw [hlim] at hmsg
              exact absurd hmsg (by simp)
            · rintro (⟨o, eo, hso, _⟩ | ⟨le', ef', hfe, hne, hev', hnn'⟩)
              · exact absurd hso (by simp)
              · injection hfe with h
                rw [← h] at hev'
                rw [hef] at hev'
                injection hev' with h2
                rw [← h2] at hnn'
                simp [isNonNegInt64Lit] at hnn'
                omega
          · intro hnullf _
            injection hnullf with h
            exact absurd h hle
        | false =>
          have hlim := limit_fetch_bad_skip_none sqlToExpr input le ef hle hef hnn
          refine ⟨fun _ hf => absurd hf (by simp), ?_, ?_⟩
          · exact iff_of_true ⟨"LIMIT must not be negative", hlim⟩
              (Or.inr ⟨le, ef, rfl, hle, hef, hnn⟩)
          · intro hnullf _
            injection hnullf with h
            exact absurd h hle
  · obtain ⟨eo, heo⟩ := hO o rfl
    cases hnno : isNonNegInt64Lit eo with
    | false =>
      obtain ⟨msg0, hlim⟩ := limit_offset_bad sqlToExpr input o fetch eo heo hnno
      refine ⟨fun hs _ => absurd hs (by simp), ?_, fun _ hs => absurd hs (by simp)⟩
      exact iff_of_true ⟨msg0, hlim⟩ (Or.inl ⟨o, eo, rfl, heo, hnno⟩)
    | true =>
      obtain ⟨s, heol, hs0⟩ := (isNonNegInt64Lit_true eo).mp hnno
      subst heol
      rcases fetch with _ | le
      · have hlim := limit_skip_good_fetch_none sqlToExpr input o s heo hs0
        refine ⟨fun hs _ => absurd hs (by simp), ?_, fun _ hs => absurd hs (by simp)⟩
        constructor
        · rintro ⟨msg, hmsg⟩
          rw [hlim] at hmsg
          exact absurd hmsg (by simp)
        · rintro (⟨o', eo', hso, hev', hnn'⟩ | ⟨le', ef', hfe, _⟩)
          · injection hso with h
            rw [← h] at hev'
            rw [heo] at hev'
            injection hev' with h2
            rw [← h2] at hnn'
            simp [isNonNegInt64Lit] at hnn'
            omega
          · exact absurd hfe (by simp)
      · by_cases hle : le = SQLExpr.Value Value.Null
        · subst hle
          have hlim := limit_skip_good_fetch_null sqlToExpr input o s heo hs0
          refine ⟨fun hs _ => absurd hs (by simp), ?_, fun _ hs => absurd hs (by simp)⟩
          constructor
          · rintro ⟨msg, hmsg⟩
            rw [hlim] at hmsg
            exact absurd hmsg (by simp)
          · rintro (⟨o', eo', hso, hev', hnn'⟩ | ⟨le', ef', hfe, hne, _⟩)
            · injection hso with h
              rw [← h] at hev'
              rw [heo] at hev'
              injection hev' with h2
              rw [← h2] at hnn'
              simp [isNonNegInt64Lit] at hnn'
              omega
            · injection hfe with h
              exact absurd h.symm hne
        · obtain ⟨ef, hef⟩ := hF le rfl hle
          cases hnnf : isNonNegInt64Lit ef with
          | true =>
            obtain ⟨n, hefl, hn0⟩ := (isNonNegInt64Lit_true ef).mp hnnf
            subst hefl
            have hlim := limit_skip_good_fetch_good sqlToExpr input o s le n heo hs0
              hle hef hn0
            refine ⟨fun hs _ => absurd hs (by simp), ?_, ?_⟩
            · constructor
              · rintro ⟨msg, hmsg⟩
                rw [hlim] at hmsg
                exact absurd hmsg (by simp)
              · rintro (⟨o', eo', hso, hev', hnn'⟩ | ⟨le', ef', hfe, hne, hev', hnn'⟩)
                · injection hso with h
                  rw [← h] at hev'
                  rw [heo] at hev'
                  injection hev' with h2
                  rw [← h2] at hnn'
                  simp [isNonNegInt64Lit] at hnn'
                  omega
                · injection hfe with h
                  rw [← h] at hev'
                  rw [hef] at hev'
                  injection hev' with h2
                  rw [← h2] at hnn'
                  simp [isNonNegInt64Lit] at hnn'
                  omega
            · intro hnullf _
              injection hnullf with h
              exact absurd h hle
          | false =>
            have hlim := limit_fetch_bad_skip_good sqlToExpr input o s le ef heo hs0
              hle hef hnnf
            refine ⟨fun hs _ => absurd hs (by simp), ?_, ?_⟩
            · exact iff_of_true ⟨"LIMIT must not be negative", hlim⟩
                (Or.inr ⟨le, ef, rfl, hle, hef, hnnf⟩)
            · intro hnullf _
              injection hnullf with h
              exact absurd h hle

end Planner

namespace Accord

theorem preacceptok_three_outcomes_witness :
    ([] : List Message) = [] ∨
    (∃ am : AcceptMsg, ([] : List Message) =
      [{ fromNode := emptyDriver.replica.get_node_id, toAddr := Address.Peers,
         proto_msg := ProtocolMessage.Accept am }]) ∨
    (∃ cm : CommitMsg, ([] : List Message) =
      [{ fromNode := emptyDriver.replica.get_node_id, toAddr := Address.Peers,
         proto_msg := ProtocolMessage.Commit cm },
       { fromNode := emptyDriver.replica.get_node_id, toAddr := Address.Local,
         proto_msg := ProtocolMessage.StartExecute { tx := cm.get_id } }]) :=
  preacceptok_three_outcomes specHandlers emptyDriver
    { fromNode := 2, toAddr := Address.Local,
      proto_msg := ProtocolMessage.PreAcceptOk samplePAOk }
    samplePAOk rfl emptyDriver [] (by rfl)

theorem startexecute_after_commit_witness :
    ∃ j cm, j < 1 ∧
      sampleCommitOuts.get? j =
        some { fromNode := 1, toAddr := Address.Peers,
               proto_msg := ProtocolMessage.Commit cm } ∧
      cm.get_id = TxId.mk 1 1 :=
  startexecute_after_commit specHandlers samplePropDriver
    { fromNode := 3, toAddr := Address.Local,
      proto_msg := ProtocolMessage.PreAcceptOk samplePAOk }
    samplePropDriver' sampleCommitOuts (by rfl)
    1
    { fromNode := 1, toAddr := Address.Local,
      proto_msg := ProtocolMessage.StartExecute { tx := ⟨1, 1⟩ } }
    (by rfl) { tx := ⟨1, 1⟩ } (by rfl)

theorem protocol_error_dropped_not_fatal_witness :
    handle_msg specHandlers emptyDriver
      { fromNode := 2, toAddr := Address.Local,
        proto_msg := ProtocolMessage.ReadOk { id := ⟨1, 1⟩, payload := 0 } } =
      Except.ok (emptyDriver, []) ∧
    start specHandlers emptyDriver
      [{ fromNode := 2, toAddr := Address.Local,
         proto_msg := ProtocolMessage.ReadOk { id := ⟨1, 1⟩, payload := 0 } }] =
      start specHandlers emptyDriver [] :=
  protocol_error_dropped_not_fatal emptyDriver
    { fromNode := 2, toAddr := Address.Local,
      proto_msg := ProtocolMessage.ReadOk { id := ⟨1, 1⟩, payload := 0 } }
    { id := ⟨1, 1⟩, payload := 0 } rfl (by rfl) []

theorem store_proposal_quorum_decision_witness :
    ((∃ cm, sampleDec = some (AcceptOrCommit.Commit cm)) ↔
      ∃ r ∈ sampleRs, samplePropCoordinator.tm.fastQuorum ≤ agreeCount sampleRs r.2) ∧
    (∀ cm, sampleDec = some (AcceptOrCommit.Commit cm) →
      cm.id = samplePAOk.id ∧
      samplePropCoordinator.tm.fastQuorum ≤
        agreeCount sampleRs { proposed_tx := cm.tx, deps := cm.deps }) ∧
    (∀ am, sampleDec = some (AcceptOrCommit.Accept am) →
      am.id = samplePAOk.id ∧ samplePropCoordinator.tm.slowQuorum ≤ sampleRs.length ∧
      (∃ r ∈ sampleRs, r.2.proposed_tx = am.tx) ∧
      (∀ r ∈ sampleRs, tsLe r.2.proposed_tx am.tx = true) ∧
      (∀ x, x ∈ am.deps ↔ ∃ r ∈ sampleRs, x ∈ r.2.deps)) ∧
    ((¬ ∃ r ∈ sampleRs, samplePropCoordinator.tm.fastQuorum ≤ agreeCount sampleRs r.2) →
      samplePropCoordinator.tm.slowQuorum ≤ sampleRs.length →
      ∃ am, sampleDec = some (AcceptOrCommit.Accept am)) ∧
    (sampleRs.length < samplePropCoordinator.tm.slowQuorum → sampleDec = none) :=
  store_proposal_quorum_decision samplePropCoordinator 3 samplePAOk samplePropTally
    (by rfl) (by decide) (by decide) samplePropCoordinator' sampleDec (by rfl)
    sampleRs (by rfl)

theorem send_outbound_wraps_and_fatal_witness :
    (emptyDriver.outboundOpen = true →
      send_outbound emptyDriver Address.Peers
          (ProtocolMessage.ApplyOk { id := ⟨1, 1⟩ }) =
        Except.ok { fromNode := emptyDriver.replica.get_node_id,
                    toAddr := Address.Peers,
                    proto_msg := ProtocolMessage.ApplyOk { id := ⟨1, 1⟩ } }) ∧
    (emptyDriver.outboundOpen = false →
      ∃ str, send_outbound emptyDriver Address.Peers
          (ProtocolMessage.ApplyOk { id := ⟨1, 1⟩ }) =
        Except.error (AccordError.OutboundSend str)) ∧
    (∀ (h : Handlers) (msg : Message) (rest : List Message) (e : AccordError),
      handle_msg h emptyDriver msg = Except.error e →
      start h emptyDriver (msg :: rest) = Except.error e) :=
  send_outbound_wraps_and_fatal emptyDriver Address.Peers
    (ProtocolMessage.ApplyOk { id := ⟨1, 1⟩ })

theorem commit_applyok_no_outbound_witness :
    (∀ m : CommitMsg,
      ({ fromNode := 2, toAddr := Address.Local,
         proto_msg := ProtocolMessage.Commit { id := ⟨1, 1⟩, tx := ⟨1, 1⟩, deps := ∅ } }
        : Message).proto_msg = ProtocolMessage.Commit m →
      ([] : List Message) = [] ∧ emptyDriver.coordinator = emptyDriver.coordinator ∧
        emptyDriver.outboundOpen = emptyDriver.outboundOpen) ∧
    (∀ m : ApplyOkMsg,
      ({ fromNode := 2, toAddr := Address.Local,
         proto_msg := ProtocolMessage.Commit { id := ⟨1, 1⟩, tx := ⟨1, 1⟩, deps := ∅ } }
        : Message).proto_msg = ProtocolMessage.ApplyOk m →
      ([] : List Message) = [] ∧ emptyDriver = emptyDriver) :=
  commit_applyok_no_outbound specHandlers emptyDriver
    { fromNode := 2, toAddr := Address.Local,
      proto_msg := ProtocolMessage.Commit { id := ⟨1, 1⟩, tx := ⟨1, 1⟩, deps := ∅ } }
    emptyDriver [] (by rfl)

theorem start_returns_on_close_or_error_witness :
    ((∃ r, start specHandlers emptyDriver [] = Except.ok r) ↔
      allHandledOk specHandlers emptyDriver []) ∧
    (∀ e, start specHandlers emptyDriver [] = Except.error e ↔
      firstErrorIs specHandlers e emptyDriver []) :=
  start_returns_on_close_or_error specHandlers [] emptyDriver

theorem replica_replies_to_sender_witness :
    (∀ (m : PreAcceptMsg) (r : ReplicaState) (ok : PreAcceptOkMsg),
      ({ fromNode := 2, toAddr := Address.Local,
         proto_msg := ProtocolMessage.PreAccept samplePreAccept } : Message).proto_msg =
        ProtocolMessage.PreAccept m →
      specHandlers.receive_preaccept emptyDriver.replica m = (r, ok) →
      samplePAOuts =
        [{ fromNode := r.get_node_id, toAddr := Address.Peer 2,
           proto_msg := ProtocolMessage.PreAcceptOk ok }]) ∧
    (∀ (m : AcceptMsg) (r : ReplicaState) (ok : AcceptOkMsg),
      ({ fromNode := 2, toAddr := Address.Local,
         proto_msg := ProtocolMessage.PreAccept samplePreAccept } : Message).proto_msg =
        ProtocolMessage.Accept m →
      specHandlers.receive_accept emptyDriver.replica m = (r, ok) →
      samplePAOuts =
        [{ fromNode := r.get_node_id, toAddr := Address.Peer 2,
           proto_msg := ProtocolMessage.AcceptOk ok }]) ∧
    (∀ (m : ReadMsg) (r : ReplicaState) (actions : List ExecutionActionOk),
      ({ fromNode := 2, toAddr := Address.Local,
         proto_msg := ProtocolMessage.PreAccept samplePreAccept } : Message).proto_msg =
        ProtocolMessage.Read m →
      specHandlers.receive_read emptyDriver.replica m = Except.ok (r, actions) →
      samplePAOuts = actions.map (actionMessage r.get_node_id (Address.Peer 2))) ∧
    (∀ (m : ApplyMsg) (r : ReplicaState) (actions : List ExecutionActionOk),
      ({ fromNode := 2, toAddr := Address.Local,
         proto_msg := ProtocolMessage.PreAccept samplePreAccept } : Message).proto_msg =
        ProtocolMessage.Apply m →
      specHandlers.receive_apply emptyDriver.replica m = Except.ok (r, actions) →
      samplePAOuts = actions.map (actionMessage r.get_node_id (Address.Peer 2))) :=
  replica_replies_to_sender specHandlers emptyDriver
    { fromNode := 2, toAddr := Address.Local,
      proto_msg := ProtocolMessage.PreAccept samplePreAccept }
    sampleDriverAfterPA samplePAOuts (by rfl)

end Accord

namespace Raft

theorem send_rpc_to_leader_retries_witness :
    1 ≤ (send_rpc_to_leader sampleTryInto sampleRpc (1, 10)).attempts ∧
    (send_rpc_to_leader sampleTryInto sampleRpc (1, 10)).attempts ≤ 3 ∧
    (send_rpc_to_leader sampleTryInto sampleRpc (1, 10)).result =
      sampleRpc ((send_rpc_to_leader sampleTryInto sampleRpc (1, 10)).attempts - 1) ∧
    (∀ i, i + 1 < (send_rpc_to_leader sampleTryInto sampleRpc (1, 10)).attempts →
      ∃ e, sampleRpc i = Except.error e ∧
        (forwardInfo sampleTryInto e).isSome = true) ∧
    (∀ e, sampleRpc 0 = Except.error e → forwardInfo sampleTryInto e = none →
      send_rpc_to_leader sampleTryInto sampleRpc (1, 10) =
        { result := Except.error e, leader := (1, 10), attempts := 1 }) :=
  send_rpc_to_leader_retries sampleTryInto sampleRpc (1, 10)

end Raft

namespace Planner

theorem limit_unchanged_and_plan_error_iff_witness :
    ((none : Option SQLOffset) = none → (none : Option SQLExpr) = none →
      limit sampleSqlToExpr (LogicalPlan.Base 0) none none =
        Except.ok (LogicalPlan.Base 0)) ∧
    ((∃ msg, limit sampleSqlToExpr (LogicalPlan.Base 0) none none =
        Except.error (DataFusionError.Plan msg)) ↔
      ((∃ o eo, (none : Option SQLOffset) = some o ∧
        sampleSqlToExpr o.value = Except.ok eo ∧ isNonNegInt64Lit eo = false) ∨
       (∃ le ef, (none : Option SQLExpr) = some le ∧
        le ≠ SQLExpr.Value Value.Null ∧
        sampleSqlToExpr le = Except.ok ef ∧ isNonNegInt64Lit ef = false))) ∧
    ((none : Option SQLExpr) = some (SQLExpr.Value Value.Null) →
      (none : Option SQLOffset) = none →
      limit sampleSqlToExpr (LogicalPlan.Base 0) none none =
        Except.ok (LogicalPlan.Limit 0 none (LogicalPlan.Base 0))) :=
  limit_unchanged_and_plan_error_iff sampleSqlToExpr (LogicalPlan.Base 0) none none
    (by intro o h; simp at h) (by intro le h; simp at h)

end Planner
